import Mathlib

/-!
Verification development for the agent orchestration core of the
modu-mcp-client repository.

The repository contains two variants of the same agent core:
the structured function-calling variant (src/mcp-agent.ts) and the
free-text JSON-directive variant (src/unnamed/part_001).  Both are
embedded below, together with the shared history-trimming logic.

Platform primitives (JSON.parse, JSON.stringify, String.prototype.trim)
are modelled by executable Lean functions faithful to their behaviour on
the inputs that occur in the program.
-/

/-- A JSON value, as produced by the platform JSON.parse. -/
inductive Json where
  | null
  | bool (b : Bool)
  | num (n : Int)
  | str (s : String)
  | arr (xs : List Json)
  | obj (fields : List (String × Json))

/-- Member access `v.k` on a parsed JSON value; non-objects yield
JS undefined, modelled as none. -/
def Json.getField : Json → String → Option Json
  | .obj fs, k => fs.lookup k
  | _, _ => none

/-- JS truthiness of a JSON value. -/
def Json.truthy : Json → Bool
  | .null => false
  | .bool b => b
  | .num n => n != 0
  | .str s => s != ""
  | .arr _ => true
  | .obj _ => true

/-- JS truthiness of a possibly-undefined member. -/
def jsTruthy : Option Json → Bool
  | some j => j.truthy
  | none => false

/-- Modelled from JS String.prototype.trim: drop whitespace at both ends. -/
def jsTrim (s : String) : String :=
  String.mk (((s.data.dropWhile Char.isWhitespace).reverse.dropWhile Char.isWhitespace).reverse)

/-- Skip JSON whitespace. -/
def skipWs : List Char → List Char
  | c :: rest =>
      if c = ' ' ∨ c = '\n' ∨ c = '\t' ∨ c = '\r' then skipWs rest else c :: rest
  | [] => []

/-- Parse the body of a JSON string literal after the opening quote,
returning the decoded string and the characters after the closing quote. -/
def parseStringBody : List Char → Option (String × List Char)
  | [] => none
  | '"' :: rest => some ("", rest)
  | '\\' :: c :: rest =>
      (parseStringBody rest).map (fun p =>
        (let decoded :=
          if c = 'n' then "\n" else if c = 't' then "\t"
          else if c = 'r' then "\r" else if c = '"' then "\""
          else if c = '\\' then "\\" else if c = '/' then "/"
          else String.singleton c
        decoded ++ p.1, p.2))
  | c :: rest => (parseStringBody rest).map (fun p => (String.singleton c ++ p.1, p.2))

/-- Take a maximal run of decimal digits. -/
def takeDigits : List Char → (List Char × List Char)
  | [] => ([], [])
  | c :: rest =>
      if c.isDigit then
        let p := takeDigits rest
        (c :: p.1, p.2)
      else ([], c :: rest)

/-- Decimal digits to a natural number. -/
def digitsToNat (ds : List Char) : Nat :=
  ds.foldl (fun n c => n * 10 + (c.toNat - '0'.toNat)) 0

/-- Worklist of the recursive-descent JSON parser: parse one value, or the
members of an object after its opening brace, or the elements of an array. -/
inductive ParseTask where
  | value (cs : List Char)
  | members (cs : List Char) (acc : List (String × Json)) (first : Bool)
  | elems (cs : List Char) (acc : List Json) (first : Bool)

/-- Fuel-indexed recursive-descent parser for JSON (model of the platform
JSON.parse; numeric literals are modelled for integers, which covers every
directive the program handles). -/
def parseStep : Nat → ParseTask → Option (Json × List Char)
  | 0, _ => none
  | Nat.succ fuel, t =>
    match t with
    | .value cs =>
      match skipWs cs with
      | [] => none
      | 'n' :: 'u' :: 'l' :: 'l' :: rest => some (Json.null, rest)
      | 't' :: 'r' :: 'u' :: 'e' :: rest => some (Json.bool true, rest)
      | 'f' :: 'a' :: 'l' :: 's' :: 'e' :: rest => some (Json.bool false, rest)
      | '"' :: rest =>
        match parseStringBody rest with
        | some (s, r) => some (Json.str s, r)
        | none => none
      | '\x7b' :: rest => parseStep fuel (.members rest [] true)
      | '[' :: rest => parseStep fuel (.elems rest [] true)
      | '-' :: rest =>
        match takeDigits rest with
        | ([], _) => none
        | (ds, r) => some (Json.num (-(Int.ofNat (digitsToNat ds))), r)
      | c :: rest =>
        if c.isDigit then
          let p := takeDigits (c :: rest)
          some (Json.num (Int.ofNat (digitsToNat p.1)), p.2)
        else none
    | .members cs acc first =>
      match skipWs cs with
      | '\x7d' :: rest => if first then some (Json.obj acc.reverse, rest) else none
      | '"' :: rest =>
        match parseStringBody rest with
        | some (key, rest2) =>
          match skipWs rest2 with
          | ':' :: rest3 =>
            match parseStep fuel (.value rest3) with
            | some (v, rest4) =>
              match skipWs rest4 with
              | ',' :: rest5 => parseStep fuel (.members rest5 ((key, v) :: acc) false)
              | '\x7d' :: rest5 => some (Json.obj ((key, v) :: acc).reverse, rest5)
              | _ => none
            | none => none
          | _ => none
        | none => none
      | _ => none
    | .elems cs acc first =>
      match skipWs cs with
      | ']' :: rest => if first then some (Json.arr acc.reverse, rest) else none
      | cs2 =>
        match parseStep fuel (.value cs2) with
        | some (v, rest2) =>
          match skipWs rest2 with
          | ',' :: rest3 => parseStep fuel (.elems rest3 (v :: acc) false)
          | ']' :: rest3 => some (Json.arr (v :: acc).reverse, rest3)
          | _ => none
        | none => none

/-- Model of the platform JSON.parse: parse a complete JSON text, rejecting
trailing garbage; none models a thrown SyntaxError. -/
def jsonParse (text : String) : Option Json :=
  match parseStep (text.length + 1) (ParseTask.value text.data) with
  | some (v, rest) => if skipWs rest = [] then some v else none
  | none => none

/-- Escape a string for JSON output. -/
def escapeJsonChar (c : Char) : String :=
  if c = '"' then "\\\"" else if c = '\\' then "\\\\"
  else if c = '\n' then "\\n" else if c = '\t' then "\\t"
  else if c = '\r' then "\\r" else String.singleton c

/-- Escape the characters of a string for JSON output. -/
def escapeJson (s : String) : String :=
  s.data.foldl (fun acc c => acc ++ escapeJsonChar c) ""

mutual

/-- Model of the platform JSON.stringify (the source passes null, 2 for
pretty-printing; the inserted whitespace is not reproduced, which no
claim depends on). -/
def jsonStringify : Json → String
  | .null => "null"
  | .bool true => "true"
  | .bool false => "false"
  | .num n => toString n
  | .str s => "\"" ++ escapeJson s ++ "\""
  | .arr xs => "[" ++ stringifyElems xs ++ "]"
  | .obj fs => "\x7b" ++ stringifyFields fs ++ "\x7d"

/-- Comma-separated serialization of array elements. -/
def stringifyElems : List Json → String
  | [] => ""
  | [x] => jsonStringify x
  | x :: y :: rest => jsonStringify x ++ "," ++ stringifyElems (y :: rest)

/-- Comma-separated serialization of object members. -/
def stringifyFields : List (String × Json) → String
  | [] => ""
  | [(k, v)] => "\"" ++ escapeJson k ++ "\":" ++ jsonStringify v
  | (k, v) :: f :: rest =>
      "\"" ++ escapeJson k ++ "\":" ++ jsonStringify v ++ "," ++ stringifyFields (f :: rest)

end

mutual

/-- Model of the implicit JS string coercion applied in template literals. -/
def jsCoerceString : Json → String
  | .null => "null"
  | .bool true => "true"
  | .bool false => "false"
  | .num n => toString n
  | .str s => s
  | .arr xs => jsCoerceList xs
  | .obj _ => "[object Object]"

/-- JS array-to-string coercion: comma-joined coerced elements. -/
def jsCoerceList : List Json → String
  | [] => ""
  | [x] => jsCoerceString x
  | x :: y :: rest => jsCoerceString x ++ "," ++ jsCoerceList (y :: rest)

end

/-- One requested tool call's function part (OpenAI shape): a name and a
JSON-encoded argument string. -/
structure ToolCallFunction where
  name : String
  arguments : String
deriving DecidableEq

/-- One structured tool-call request carried by an assistant message. -/
structure ToolCall where
  id : String
  type : String
  function : ToolCallFunction
deriving DecidableEq

/-- A chat message as stored in chatHistory.  content is none when the JS
value is not a string (e.g. a null-content assistant turn); tool_call_id
and tool_calls are only populated on the messages that carry them. -/
structure Msg where
  role : String
  content : Option String
  tool_call_id : Option String := none
  tool_calls : List ToolCall := []
deriving DecidableEq

/-- Content length contribution of one message: the string content length,
with non-string content counting as the empty string. -/
def msgLen (m : Msg) : Nat :=
  match m.content with
  | some s => s.length
  | none => 0

/-- Source constant MAX_CONTEXT_TOKENS. -/
def MAX_CONTEXT_TOKENS : Nat := 200000

/-- Source constant ESTIMATED_CHARS_PER_TOKEN. -/
def ESTIMATED_CHARS_PER_TOKEN : Nat := 4

/-- Source constant MAX_CONTEXT_CHARS = 800000. -/
def MAX_CONTEXT_CHARS : Nat := MAX_CONTEXT_TOKENS * ESTIMATED_CHARS_PER_TOKEN

/-- Source constant TRIM_THRESHOLD = MAX_CONTEXT_CHARS * 0.8 = 640000. -/
def TRIM_THRESHOLD : Nat := MAX_CONTEXT_CHARS * 8 / 10

/-- Source local targetLength = MAX_CONTEXT_CHARS * 0.5 = 400000 in
trimHistory. -/
def targetLength : Nat := MAX_CONTEXT_CHARS * 5 / 10

/-- calculateHistoryLength from both variants: total string-content length
of the history. -/
def calculateHistoryLength (hist : List Msg) : Nat :=
  hist.foldl (fun total m => total + msgLen m) 0

/-- The backward walk of trimHistory over the reversed message list:
admit messages while admitting the next does not push the accumulated
length beyond the target. -/
def takeRecentRev (target : Nat) (acc : Nat) : List Msg → List Msg
  | [] => []
  | m :: rest =>
      if acc + msgLen m > target then []
      else m :: takeRecentRev target (acc + msgLen m) rest

/-- trimHistory from both variants: below the threshold do nothing;
otherwise keep the first system-role message and the maximal recent
run of the non-system messages fitting the target budget. -/
def trimHistory (hist : List Msg) : List Msg :=
  let currentLength := calculateHistoryLength hist
  if currentLength < TRIM_THRESHOLD then hist
  else
    match hist.find? (fun m => m.role == "system") with
    | none => hist
    | some systemPrompt =>
      let otherMessages := hist.filter (fun m => m.role != "system")
      let recentMessages := (takeRecentRev targetLength 0 otherMessages.reverse).reverse
      systemPrompt :: recentMessages

/-- An OpenAI function declaration (name, description, parameter schema). -/
structure FunctionDef where
  name : String
  description : String
  parameters : Json

/-- An OpenAI chat-completion tool descriptor. -/
structure OpenAIChatTool where
  type : String
  function : FunctionDef

/-- customFunctions from src/mcp-agent.ts: the statically declared local
descriptors (describe_image). -/
def customFunctions : List OpenAIChatTool :=
  [{ type := "function"
     function :=
       { name := "describe_image"
         description :=
           "Returns string, the explanation of the content of an image given its URL."
         parameters :=
           Json.obj
             [("type", Json.str "object"),
              ("properties",
               Json.obj
                 [("imageUrl",
                   Json.obj
                     [("type", Json.str "string"),
                      ("description", Json.str "The URL of the image to describe.")])])] } }]

/-- The initial value of the mutable openAITools array after the module-load
push of customFunctions (let openAITools = []; openAITools.push(...customFunctions)). -/
def openAIToolsInitial : List OpenAIChatTool := [] ++ customFunctions

/-- A tool as enumerated from the MCP provider. -/
structure MCPTool where
  name : String
  description : Option String
  inputSchema : Option Json

/-- convertMCPToolToOpenAIFunction from src/mcp-agent.ts. -/
def convertMCPToolToOpenAIFunction (mcpTool : MCPTool) : OpenAIChatTool :=
  { type := "function"
    function :=
      { name := mcpTool.name
        description := mcpTool.description.getD "No description provided"
        parameters :=
          mcpTool.inputSchema.getD
            (Json.obj [("type", Json.str "object"), ("properties", Json.obj [])]) } }

/-- The value assigned to openAITools inside initialize:
openAITools = mcpTools.map(convertMCPToolToOpenAIFunction).  Note the plain
assignment: the previously pushed customFunctions are not merged in. -/
def openAIToolsAfterInitialize (mcpTools : List MCPTool) : List OpenAIChatTool :=
  mcpTools.map convertMCPToolToOpenAIFunction

/-- isCustomFunction from src/mcp-agent.ts. -/
def isCustomFunction (functionName : String) : Bool :=
  customFunctions.any (fun func => func.function.name == functionName)

/-- Observable events of one executeCommand run, in chronological order:
the user-command append, the trimHistory invocations, the LLM requests,
the assistant-message appends, the provider tool invocations, and the
tool-result appends. -/
inductive Ev where
  | pushUser (m : Msg)
  | pushAssistant (m : Msg)
  | pushToolResult (m : Msg)
  | trimCheck
  | request
  | toolCall (name : String) (args : Json)

/-- The head of a script of optional LLM payloads; an exhausted script acts
like a response without a message. -/
def headEntry {α : Type} : List (Option α) → Option α
  | [] => none
  | e :: _ => e

namespace FreeText

/-- External collaborators of the free-text variant: the scripted sequence
of LLM response contents (none models a missing message/content) and the
MCP callTool capability (error models a thrown provider failure). -/
structure Env where
  script : List (Option String)
  callTool : String → Json → Except String Json

/-- The llmOutput computed at the top of each iteration:
completion.choices[0]?.message?.content?.trim() || "". -/
def llmOutputOf : Option String → String
  | some s => jsTrim s
  | none => ""

/-- The strict test parsed.done === true. -/
def isDoneTrue (parsed : Json) : Bool :=
  match parsed.getField "done" with
  | some (Json.bool true) => true
  | _ => false

/-- Per-command loop state of the free-text variant, with the chat history
and the event trace threaded through. -/
structure LoopState where
  hist : List Msg
  trace : List Ev
  iteration : Nat
  finalMessage : String
  taskComplete : Bool

/-- One iteration of the free-text agent loop (src/unnamed/part_001,
executeCommand body): request the LLM, append the assistant message,
and interpret the output as a done directive, a tool directive, or a
plain reply.  A callTool failure is caught by the same catch that handles
non-JSON output: the raw output becomes the final message. -/
def step (env : Env) (entry : Option String) (st : LoopState) : LoopState :=
  let llmOutput := llmOutputOf entry
  let amsg : Msg := { role := "assistant", content := some llmOutput }
  let st := { st with iteration := st.iteration + 1, hist := st.hist ++ [amsg] }
  match jsonParse llmOutput with
  | none =>
      { st with trace := st.trace ++ [Ev.request, Ev.pushAssistant amsg],
                finalMessage := llmOutput, taskComplete := true }
  | some parsed =>
      if isDoneTrue parsed then
        let st := { st with trace := st.trace ++ [Ev.request, Ev.pushAssistant amsg] }
        if jsTruthy (parsed.getField "message") then
          { st with finalMessage := jsCoerceString ((parsed.getField "message").getD Json.null)
                    taskComplete := true }
        else { st with taskComplete := true }
      else if jsTruthy (parsed.getField "tool") && jsTruthy (parsed.getField "arguments") then
        let toolName := jsCoerceString ((parsed.getField "tool").getD Json.null)
        let toolArgs := (parsed.getField "arguments").getD Json.null
        match env.callTool toolName toolArgs with
        | Except.ok mcpResult =>
            let resultString := jsonStringify mcpResult
            let tmsg : Msg :=
              { role := "system"
                content := some ("Tool execution result:\nTool: " ++ toolName ++
                  "\nResult: " ++ resultString) }
            { st with hist := trimHistory (st.hist ++ [tmsg])
                      trace := st.trace ++ [Ev.request, Ev.pushAssistant amsg,
                        Ev.toolCall toolName toolArgs, Ev.pushToolResult tmsg, Ev.trimCheck] }
        | Except.error _ =>
            { st with trace := st.trace ++ [Ev.request, Ev.pushAssistant amsg,
                        Ev.toolCall toolName toolArgs],
                      finalMessage := llmOutput, taskComplete := true }
      else
        { st with trace := st.trace ++ [Ev.request, Ev.pushAssistant amsg],
                  taskComplete := true }

/-- The agent while loop: while (!taskComplete && iteration < MAX_ITERATIONS). -/
def loop (env : Env) : Nat → List (Option String) → LoopState → LoopState
  | 0, _, st => st
  | Nat.succ fuel, script, st =>
      if st.taskComplete then st
      else
        match script with
        | [] => loop env fuel [] (step env none st)
        | e :: rest => loop env fuel rest (step env e st)

/-- Result of one free-text executeCommand: the returned string, plus the
final chat history and the event trace. -/
structure Result where
  message : String
  hist : List Msg
  trace : List Ev

/-- executeCommand from src/unnamed/part_001, over an explicit starting
history (the global chatHistory after initialize). -/
def executeCommand (env : Env) (hist0 : List Msg) (userCommand : String) : Result :=
  let userMsg : Msg := { role := "user", content := some userCommand }
  let hist1 := trimHistory (hist0 ++ [userMsg])
  let st0 : LoopState :=
    { hist := hist1, trace := [Ev.pushUser userMsg, Ev.trimCheck],
      iteration := 0, finalMessage := "", taskComplete := false }
  let st := loop env 10 env.script st0
  let fm :=
    if 10 ≤ st.iteration ∧ st.taskComplete = false then
      "Maximum iterations reached. Task may be incomplete."
    else st.finalMessage
  { message := fm, hist := st.hist, trace := st.trace }

end FreeText

namespace McpAgent

/-- External collaborators of the structured variant: the scripted LLM
responses (none models completion.choices[0]?.message being absent), the
MCP callTool capability and the vision model used by describe_image
(its optional content mirrors visionResponse.choices[0]?.message?.content). -/
structure LLMMessage where
  content : Option String
  tool_calls : List ToolCall

structure Env where
  script : List (Option LLMMessage)
  callTool : String → Json → Except String Json
  vision : Json → Except String (Option String)

/-- Per-command loop state of the structured variant. -/
structure LoopState where
  hist : List Msg
  trace : List Ev
  iteration : Nat
  finalMessage : String

/-- Outcome of running (part of) the loop: a normal state, or a thrown
exception together with the state at the throw (the global history keeps
the appends made before it). -/
inductive Outcome where
  | ok (st : LoopState)
  | err (e : String) (st : LoopState)

/-- The loop state carried by an outcome; the thrown case keeps the state
at the throw, mirroring the mutations already made to the global history. -/
def Outcome.state : Outcome → LoopState
  | Outcome.ok st => st
  | Outcome.err _ st => st

/-- executeCustomFunction from src/mcp-agent.ts: describe_image calls the
vision model and appends its result (or the captured error) as a tool
result; both branches are caught internally and never throw. -/
def executeCustomFunction (env : Env) (functionName : String) (functionArgs : Json)
    (toolCallId : String) (st : LoopState) : LoopState :=
  if functionName = "describe_image" then
    let imageUrl := (functionArgs.getField "imageUrl").getD Json.null
    match env.vision imageUrl with
    | Except.ok content =>
        let description :=
          match content with
          | some s => if s = "" then "Could not analyze the image." else s
          | none => "Could not analyze the image."
        let result :=
          Json.obj [("success", Json.bool true), ("imageUrl", imageUrl),
            ("description", Json.str description)]
        let tmsg : Msg :=
          { role := "tool", content := some (jsonStringify result),
            tool_call_id := some toolCallId }
        { st with hist := st.hist ++ [tmsg], trace := st.trace ++ [Ev.pushToolResult tmsg] }
    | Except.error e =>
        let errorResult := Json.obj [("error", Json.bool true), ("message", Json.str e)]
        let tmsg : Msg :=
          { role := "tool", content := some (jsonStringify errorResult),
            tool_call_id := some toolCallId }
        { st with hist := st.hist ++ [tmsg], trace := st.trace ++ [Ev.pushToolResult tmsg] }
  else st

/-- The for loop over message.tool_calls: skip non-function calls, parse
the JSON argument string (a parse failure throws out of the turn), route
custom functions locally, and call the MCP provider otherwise, appending
the result or the captured error as a tool-result message. -/
def processToolCalls (env : Env) : List ToolCall → LoopState → Outcome
  | [], st => Outcome.ok st
  | tc :: rest, st =>
      if tc.type ≠ "function" then processToolCalls env rest st
      else
        match jsonParse tc.function.arguments with
        | none => Outcome.err "SyntaxError: Unexpected token in JSON" st
        | some functionArgs =>
            if isCustomFunction tc.function.name then
              processToolCalls env rest
                (executeCustomFunction env tc.function.name functionArgs tc.id st)
            else
              let st1 := { st with trace := st.trace ++ [Ev.toolCall tc.function.name functionArgs] }
              match env.callTool tc.function.name functionArgs with
              | Except.ok mcpResult =>
                  let resultString :=
                    ((jsonStringify mcpResult).replace "\\" "").replace "&quot;" "\""
                  let tmsg : Msg :=
                    { role := "tool", content := some resultString,
                      tool_call_id := some tc.id }
                  processToolCalls env rest
                    { st1 with hist := st1.hist ++ [tmsg],
                               trace := st1.trace ++ [Ev.pushToolResult tmsg] }
              | Except.error e =>
                  let errJson := Json.obj [("error", Json.bool true), ("message", Json.str e)]
                  let tmsg : Msg :=
                    { role := "tool", content := some (jsonStringify errJson),
                      tool_call_id := some tc.id }
                  processToolCalls env rest
                    { st1 with hist := st1.hist ++ [tmsg],
                               trace := st1.trace ++ [Ev.pushToolResult tmsg] }

/-- The agent while loop: while (iteration < MAX_ITERATIONS), breaking on a
missing message, on a text-only response (the final answer) and on a
response with neither text nor tool calls. -/
def loop (env : Env) : Nat → List (Option LLMMessage) → LoopState → Outcome
  | 0, _, st => Outcome.ok st
  | Nat.succ fuel, script, st =>
      let entry := headEntry script
      let st1 := { st with iteration := st.iteration + 1, trace := st.trace ++ [Ev.request] }
      match entry with
      | none => Outcome.ok st1
      | some message =>
          let amsg : Msg :=
            { role := "assistant", content := message.content,
              tool_calls := message.tool_calls }
          let st2 := { st1 with hist := st1.hist ++ [amsg],
                                trace := st1.trace ++ [Ev.pushAssistant amsg] }
          if message.tool_calls.isEmpty then
            match message.content with
            | some c => if c = "" then Outcome.ok st2 else Outcome.ok { st2 with finalMessage := c }
            | none => Outcome.ok st2
          else
            match processToolCalls env message.tool_calls st2 with
            | Outcome.ok st3 => loop env fuel script.tail st3
            | Outcome.err e st3 => Outcome.err e st3

/-- Result of one structured executeCommand: the returned string (or the
rethrown exception), plus the final chat history and the event trace. -/
structure Result where
  retval : Except String String
  hist : List Msg
  trace : List Ev

/-- executeCommand from src/mcp-agent.ts, over an explicit starting history
(the global chatHistory after initialize). -/
def executeCommand (env : Env) (hist0 : List Msg) (userCommand : String) : Result :=
  let userMsg : Msg := { role := "user", content := some userCommand }
  let hist1 := trimHistory (hist0 ++ [userMsg])
  let st0 : LoopState :=
    { hist := hist1, trace := [Ev.pushUser userMsg, Ev.trimCheck],
      iteration := 0, finalMessage := "" }
  let out := loop env 20 env.script st0
  let st := out.state
  let retval :=
    match out with
    | Outcome.ok _ =>
        Except.ok
          (if 20 ≤ st.iteration then
            (if st.finalMessage = "" then "Maximum iterations reached. Task may be incomplete."
             else st.finalMessage)
           else st.finalMessage)
    | Outcome.err e _ => Except.error e
  { retval := retval, hist := st.hist, trace := st.trace }

end McpAgent

/-- Total content length as a map-sum, for algebraic reasoning. -/
def sumLen (l : List Msg) : Nat := (l.map msgLen).sum

/-- p is an initial segment of l. -/
def PrefixOf {α : Type} (p l : List α) : Prop := ∃ t, l = p ++ t

/-- s is a final segment of l. -/
def SuffixOf {α : Type} (s l : List α) : Prop := ∃ t, l = t ++ s

/-- Checks that every tool-result append in a trace is immediately followed
by a trimHistory invocation. -/
def noOrphanToolResult : List Ev → Bool
  | [] => true
  | Ev.pushToolResult _ :: rest =>
      match rest with
      | Ev.trimCheck :: _ => noOrphanToolResult rest
      | _ => false
  | _ :: rest => noOrphanToolResult rest

/-- Whether a trace ends with a tool-result append. -/
def endsWithTR (l : List Ev) : Bool :=
  match l.getLast? with
  | some (Ev.pushToolResult _) => true
  | _ => false

/-- Number of LLM requests recorded in a trace. -/
def countRequests (tr : List Ev) : Nat :=
  tr.countP (fun e => match e with | Ev.request => true | _ => false)

/-- Number of tool-result appends recorded in a trace. -/
def countToolResultPushes (tr : List Ev) : Nat :=
  tr.countP (fun e => match e with | Ev.pushToolResult _ => true | _ => false)

/-- The provider tool invocations recorded in a trace, in order. -/
def toolCallEvents : List Ev → List (String × Json)
  | [] => []
  | Ev.toolCall n a :: rest => (n, a) :: toolCallEvents rest
  | _ :: rest => toolCallEvents rest

/-- A structured LLM response that keeps the loop running: it carries tool
calls, and every function-typed call has parseable JSON arguments. -/
def structLoopingB (e : Option McpAgent.LLMMessage) : Bool :=
  match e with
  | none => false
  | some m =>
      !m.tool_calls.isEmpty &&
      m.tool_calls.all (fun tc => (tc.type != "function") || (jsonParse tc.function.arguments).isSome)

/-- A structured LLM response in a degenerate terminal state: no message at
all, or neither (truthy) text content nor tool calls. -/
def structDegenerateB (e : Option McpAgent.LLMMessage) : Bool :=
  match e with
  | none => true
  | some m =>
      m.tool_calls.isEmpty &&
      (match m.content with
       | none => true
       | some c => c == "")

/-- A free-text LLM output that keeps the loop running: valid JSON, not a
done directive, a truthy tool/arguments pair, and a succeeding provider
call. -/
def freeLoopingB (env : FreeText.Env) (e : Option String) : Bool :=
  match jsonParse (FreeText.llmOutputOf e) with
  | none => false
  | some parsed =>
      !FreeText.isDoneTrue parsed &&
      jsTruthy (parsed.getField "tool") && jsTruthy (parsed.getField "arguments") &&
      (match env.callTool (jsCoerceString ((parsed.getField "tool").getD Json.null))
          ((parsed.getField "arguments").getD Json.null) with
       | Except.ok _ => true
       | Except.error _ => false)

/-- A free-text LLM output in a degenerate terminal state: valid JSON that
is neither a done:true directive nor a tool/arguments directive, or a
done:true directive without a message field. -/
def freeDegenerateB (e : Option String) : Bool :=
  match jsonParse (FreeText.llmOutputOf e) with
  | none => false
  | some parsed =>
      (!FreeText.isDoneTrue parsed &&
        !(jsTruthy (parsed.getField "tool") && jsTruthy (parsed.getField "arguments")))
      || (FreeText.isDoneTrue parsed && (parsed.getField "message").isNone)

/-- Modelled from the wording of claim C3 and spec section 4.1: rebuild the
history as the system instruction followed by the maximal most-recent
suffix of all remaining messages (every message other than the system
instruction itself) fitting the target, discarding the older ones. -/
def trimPerClaim (hist : List Msg) : List Msg :=
  if calculateHistoryLength hist < TRIM_THRESHOLD then hist
  else
    match hist.find? (fun m => m.role == "system") with
    | none => hist
    | some systemPrompt =>
      let remaining := hist.eraseP (fun m => m.role == "system")
      systemPrompt :: (takeRecentRev targetLength 0 remaining.reverse).reverse

/-- An operation on the context store: an append or a trim. -/
inductive HistOp where
  | append (m : Msg)
  | trim
deriving DecidableEq

/-- Apply one context-store operation. -/
def applyOp (hist : List Msg) : HistOp → List Msg
  | HistOp.append m => hist ++ [m]
  | HistOp.trim => trimHistory hist

/-- Apply a sequence of context-store operations in order. -/
def applyOps (hist : List Msg) (ops : List HistOp) : List Msg :=
  ops.foldl applyOp hist

/-- A 400000-character content string for the trimming counterexamples. -/
def bigA : String := String.mk (List.replicate 400000 'a')

/-- A 300000-character content string for the trimming counterexamples. -/
def bigB : String := String.mk (List.replicate 300000 'b')

/-- The system instruction of the C3 counterexample history. -/
def c3sys : Msg := { role := "system", content := some "" }

/-- The large user message of the C3 counterexample history. -/
def c3user : Msg := { role := "user", content := some bigA }

/-- The recent system-role tool-result message of the C3 counterexample
history, as appended by the free-text variant after a tool execution. -/
def c3toolres : Msg := { role := "system", content := some bigB }

/-- A history, reachable in the free-text variant, on which the code's
trimming and the claim's wording disagree: the most recent message is a
system-role tool result. -/
def c3hist : List Msg := [c3sys, c3user, c3toolres]

/-- A small system instruction used as the initialized store in concrete
runs. -/
def sysMsg0 : Msg := { role := "system", content := some "You are an assistant." }

/-- Free-text environment for the immediate-done scenario. -/
def c9envA : FreeText.Env :=
  { script := [some "\x7b\"done\": true, \"message\": \"hello\"\x7d"],
    callTool := fun _ _ => Except.error "unused" }

/-- Free-text environment for the one-tool-then-done scenario. -/
def c9envB : FreeText.Env :=
  { script := [some "\x7b\"tool\": \"search\", \"arguments\": \x7b\"q\": \"x\"\x7d\x7d",
               some "\x7b\"done\": true, \"message\": \"found it\"\x7d"],
    callTool := fun n _ =>
      if n = "search" then Except.ok (Json.str "result-1") else Except.error "ToolNotFound" }

/-- Free-text environment where the single requested tool call throws. -/
def c1env : FreeText.Env :=
  { script := [some "\x7b\"tool\": \"search\", \"arguments\": \x7b\"q\": \"x\"\x7d\x7d"],
    callTool := fun _ _ => Except.error "ECONNREFUSED" }

/-- Structured environment issuing one successful tool call and then a
final text answer. -/
def c4env : McpAgent.Env :=
  { script :=
      [some { content := none,
              tool_calls := [{ id := "call_1", type := "function",
                               function := { name := "search",
                                             arguments := "\x7b\"q\": \"x\"\x7d" } }] },
       some { content := some "done", tool_calls := [] }],
    callTool := fun _ _ => Except.ok (Json.str "ok"),
    vision := fun _ => Except.ok (some "a description") }

/-- Structured environment that requests a tool call on all 20 iterations. -/
def c8structEnv : McpAgent.Env :=
  { script := List.replicate 20
      (some { content := none,
              tool_calls := [{ id := "c1", type := "function",
                               function := { name := "t", arguments := "\x7b\x7d" } }] }),
    callTool := fun _ _ => Except.ok Json.null,
    vision := fun _ => Except.ok (some "a description") }

/-- Free-text environment that requests a tool call on all 10 iterations. -/
def c8freeEnv : FreeText.Env :=
  { script := List.replicate 10 (some "\x7b\"tool\": \"t\", \"arguments\": \x7b\x7d\x7d"),
    callTool := fun _ _ => Except.ok Json.null }

/-- Structured environment answering with neither content nor tool calls. -/
def c10structEnv : McpAgent.Env :=
  { script := [some { content := none, tool_calls := [] }],
    callTool := fun _ _ => Except.ok Json.null,
    vision := fun _ => Except.ok (some "a description") }

/-- Free-text environment answering with valid JSON of neither shape. -/
def c10freeEnv : FreeText.Env :=
  { script := [some "\x7b\"done\": false\x7d"],
    callTool := fun _ _ => Except.ok Json.null }


theorem foldl_add_msgLen (l : List Msg) : ∀ n : Nat,
    List.foldl (fun t m => t + msgLen m) n l = n + sumLen l := by
  induction l with
  | nil => intro n; simp [sumLen]
  | cons m rest ih =>
      intro n
      simp only [List.foldl_cons, sumLen, List.map_cons, List.sum_cons]
      rw [ih]
      simp only [sumLen]
      omega

theorem calcLen_eq_sumLen (l : List Msg) : calculateHistoryLength l = sumLen l := by
  unfold calculateHistoryLength
  rw [foldl_add_msgLen]
  omega

theorem sumLen_append (a b : List Msg) : sumLen (a ++ b) = sumLen a + sumLen b := by
  simp [sumLen]

theorem sumLen_reverse (l : List Msg) : sumLen l.reverse = sumLen l := by
  simp only [sumLen, List.map_reverse]
  exact List.sum_reverse _

theorem prefixOf_length_le {α : Type} {p l : List α} (h : PrefixOf p l) :
    p.length ≤ l.length := by
  obtain ⟨t, ht⟩ := h
  subst ht
  simp

theorem prefixOf_sumLen_le {p l : List Msg} (h : PrefixOf p l) : sumLen p ≤ sumLen l := by
  obtain ⟨t, ht⟩ := h
  subst ht
  rw [sumLen_append]
  omega

theorem prefixOf_mem {α : Type} {p l : List α} (h : PrefixOf p l) {x : α} (hx : x ∈ p) :
    x ∈ l := by
  obtain ⟨t, ht⟩ := h
  subst ht
  exact List.mem_append_left _ hx

theorem suffixOf_reverse {α : Type} {s l : List α} (h : SuffixOf s l) :
    PrefixOf s.reverse l.reverse := by
  obtain ⟨t, ht⟩ := h
  subst ht
  exact ⟨t.reverse, by simp⟩

theorem prefixOf_reverse {α : Type} {p l : List α} (h : PrefixOf p l.reverse) :
    SuffixOf p.reverse l := by
  obtain ⟨t, ht⟩ := h
  refine ⟨t.reverse, ?_⟩
  have := congrArg List.reverse ht
  simpa using this

theorem takeRecentRev_prefixOf (target : Nat) (l : List Msg) : ∀ acc : Nat,
    PrefixOf (takeRecentRev target acc l) l := by
  induction l with
  | nil => intro acc; exact ⟨[], rfl⟩
  | cons m rest ih =>
      intro acc
      by_cases h : acc + msgLen m > target
      · rw [takeRecentRev, if_pos h]
        exact ⟨m :: rest, rfl⟩
      · rw [takeRecentRev, if_neg h]
        obtain ⟨t, ht⟩ := ih (acc + msgLen m)
        exact ⟨t, by rw [List.cons_append, ← ht]⟩

theorem takeRecentRev_sum_le (target : Nat) (l : List Msg) : ∀ acc : Nat, acc ≤ target →
    acc + sumLen (takeRecentRev target acc l) ≤ target := by
  induction l with
  | nil => intro acc h; simpa [takeRecentRev, sumLen] using h
  | cons m rest ih =>
      intro acc h
      by_cases hb : acc + msgLen m > target
      · simpa [takeRecentRev, hb, sumLen] using h
      · rw [takeRecentRev, if_neg hb]
        have := ih (acc + msgLen m) (by omega)
        simp only [sumLen, List.map_cons, List.sum_cons] at *
        omega

theorem takeRecentRev_eq_self (target : Nat) (l : List Msg) : ∀ acc : Nat,
    acc + sumLen l ≤ target → takeRecentRev target acc l = l := by
  induction l with
  | nil => intro acc _; rfl
  | cons m rest ih =>
      intro acc h
      simp only [sumLen, List.map_cons, List.sum_cons] at h
      have hb : ¬ acc + msgLen m > target := by omega
      rw [takeRecentRev, if_neg hb, ih (acc + msgLen m) (by simp only [sumLen]; omega)]

theorem prefixOf_takeRecentRev (target : Nat) (p : List Msg) : ∀ (l : List Msg) (acc : Nat),
    PrefixOf p l → acc + sumLen p ≤ target → PrefixOf p (takeRecentRev target acc l) := by
  induction p with
  | nil => intro l acc _ _; exact ⟨takeRecentRev target acc l, rfl⟩
  | cons m p' ih =>
      intro l acc hp hsum
      obtain ⟨t, ht⟩ := hp
      subst ht
      simp only [sumLen, List.map_cons, List.sum_cons] at hsum
      have hb : ¬ acc + msgLen m > target := by omega
      rw [List.cons_append, takeRecentRev, if_neg hb]
      have := ih (p' ++ t) (acc + msgLen m) ⟨t, rfl⟩ (by simp only [sumLen]; omega)
      obtain ⟨t2, ht2⟩ := this
      exact ⟨t2, by rw [List.cons_append, ← ht2]⟩

theorem msgLen_le_sumLen_of_mem {m : Msg} {l : List Msg} (h : m ∈ l) :
    msgLen m ≤ sumLen l := by
  exact List.single_le_sum (fun x _ => Nat.zero_le x) _ (List.mem_map_of_mem msgLen h)

theorem sumLen_filter_add (p : Msg → Bool) (l : List Msg) :
    sumLen (l.filter p) + sumLen (l.filter (fun x => !(p x))) = sumLen l := by
  induction l with
  | nil => rfl
  | cons m rest ih =>
      by_cases h : p m = true
      · simp only [List.filter_cons, h, cond_true, Bool.not_eq_true', h]
        simp only [sumLen, List.map_cons, List.sum_cons] at *
        simp [h]
        omega
      · have h' : p m = false := by simpa using h
        simp only [List.filter_cons, h']
        simp only [sumLen, List.map_cons, List.sum_cons] at *
        simp [h']
        omega

theorem trimHistory_of_lt (hist : List Msg)
    (h : calculateHistoryLength hist < TRIM_THRESHOLD) : trimHistory hist = hist := by
  unfold trimHistory
  simp [h]

theorem trimHistory_of_find_none (hist : List Msg)
    (h : hist.find? (fun m => m.role == "system") = none) : trimHistory hist = hist := by
  unfold trimHistory
  by_cases hlt : calculateHistoryLength hist < TRIM_THRESHOLD
  · simp [hlt]
  · simp [hlt, h]

theorem trimHistory_rebuild (hist : List Msg) (m0 : Msg)
    (hth : ¬ calculateHistoryLength hist < TRIM_THRESHOLD)
    (hfind : hist.find? (fun m => m.role == "system") = some m0) :
    trimHistory hist =
      m0 :: (takeRecentRev targetLength 0
        (hist.filter (fun m => m.role != "system")).reverse).reverse := by
  unfold trimHistory
  simp [hth, hfind]

theorem find?_system_role {hist : List Msg} {m0 : Msg}
    (hfind : hist.find? (fun m => m.role == "system") = some m0) : m0.role = "system" := by
  have hp := List.find?_some hfind
  simpa using hp

theorem trim_fixed (m0 : Msg) (kept : List Msg) (hrole : m0.role = "system")
    (hkept : ∀ m ∈ kept, (m.role != "system") = true)
    (hsum : sumLen kept ≤ targetLength) :
    trimHistory (m0 :: kept) = m0 :: kept := by
  by_cases h : calculateHistoryLength (m0 :: kept) < TRIM_THRESHOLD
  · exact trimHistory_of_lt _ h
  · have hfind : (m0 :: kept).find? (fun m => m.role == "system") = some m0 :=
      List.find?_cons_of_pos _ (by simp [hrole])
    rw [trimHistory_rebuild _ _ h hfind]
    have hfilter : (m0 :: kept).filter (fun m => m.role != "system") = kept := by
      rw [List.filter_cons]
      have hm0 : (m0.role != "system") = false := by simp [hrole]
      simp only [hm0, if_neg, Bool.false_eq_true, ite_false]
      exact List.filter_eq_self.mpr hkept
    rw [hfilter, takeRecentRev_eq_self _ _ 0 (by rw [sumLen_reverse]; omega),
      List.reverse_reverse]

/-- C6: invoking trimHistory twice consecutively yields the same history as
invoking it once, for every starting history. -/
theorem c6_trim_idempotent (hist : List Msg) :
    trimHistory (trimHistory hist) = trimHistory hist := by
  by_cases h : calculateHistoryLength hist < TRIM_THRESHOLD
  · rw [trimHistory_of_lt hist h]
    exact trimHistory_of_lt hist h
  · cases hfind : hist.find? (fun m => m.role == "system") with
    | none =>
        rw [trimHistory_of_find_none hist hfind]
        exact trimHistory_of_find_none hist hfind
    | some m0 =>
        rw [trimHistory_rebuild hist m0 h hfind]
        apply trim_fixed
        · exact find?_system_role hfind
        · intro m hm
          have hmem : m ∈ (hist.filter (fun mm => mm.role != "system")).reverse := by
            have hpref := takeRecentRev_prefixOf targetLength
              ((hist.filter (fun mm => mm.role != "system")).reverse) 0
            exact prefixOf_mem hpref (by simpa using hm)
          rw [List.mem_reverse] at hmem
          exact (List.mem_filter.mp hmem).2
        · have h0 := takeRecentRev_sum_le targetLength
            ((hist.filter (fun mm => mm.role != "system")).reverse) 0 (Nat.zero_le _)
          rw [sumLen_reverse]
          omega

theorem trimHistory_cons_system (m0 : Msg) (rest : List Msg) (h : m0.role = "system") :
    ∃ t, trimHistory (m0 :: rest) = m0 :: t := by
  by_cases hlt : calculateHistoryLength (m0 :: rest) < TRIM_THRESHOLD
  · exact ⟨rest, trimHistory_of_lt _ hlt⟩
  · have hfind : (m0 :: rest).find? (fun m => m.role == "system") = some m0 :=
      List.find?_cons_of_pos _ (by simp [h])
    exact ⟨_, trimHistory_rebuild _ _ hlt hfind⟩

theorem applyOps_keeps_head (ops : List HistOp) : ∀ (m0 : Msg) (rest : List Msg),
    m0.role = "system" → ∃ t, applyOps (m0 :: rest) ops = m0 :: t := by
  induction ops with
  | nil => intro m0 rest _; exact ⟨rest, rfl⟩
  | cons op ops ih =>
      intro m0 rest h
      cases op with
      | append m => exact ih m0 (rest ++ [m]) h
      | trim =>
          obtain ⟨t, ht⟩ := trimHistory_cons_system m0 rest h
          have hstep : applyOps (m0 :: rest) (HistOp.trim :: ops) =
              applyOps (trimHistory (m0 :: rest)) ops := rfl
          rw [hstep, ht]
          exact ih m0 t h

/-- C5: starting from an initialized store with the system instruction at
index 0, any sequence of appends and trims leaves that same system
instruction at index 0; trimming never evicts it. -/
theorem c5_system_instruction_invariant (ops : List HistOp) (m0 : Msg) (rest : List Msg)
    (h : m0.role = "system") :
    (applyOps (m0 :: rest) ops).head? = some m0 := by
  obtain ⟨t, ht⟩ := applyOps_keeps_head ops m0 rest h
  rw [ht]
  rfl

/-- Witness for C5 at a concrete store and operation sequence. -/
theorem c5_system_instruction_invariant_witness :
    (Msg.mk "system" (some "be helpful") none []).role = "system" ∧
    (applyOps [Msg.mk "system" (some "be helpful") none []]
        [HistOp.append (Msg.mk "user" (some "hi") none []), HistOp.trim]).head? =
      some (Msg.mk "system" (some "be helpful") none []) :=
  ⟨rfl, c5_system_instruction_invariant _ _ _ rfl⟩

/-- C7: trimming never increases the total content length, and whenever a
system-role message is present (the one trimHistory locates), the trimmed
total never drops below that message's own length. -/
theorem c7_trim_size_bounds (hist : List Msg) :
    calculateHistoryLength (trimHistory hist) ≤ calculateHistoryLength hist ∧
    (∀ m0, hist.find? (fun m => m.role == "system") = some m0 →
      msgLen m0 ≤ calculateHistoryLength (trimHistory hist)) := by
  constructor
  · by_cases h : calculateHistoryLength hist < TRIM_THRESHOLD
    · rw [trimHistory_of_lt hist h]
    · cases hfind : hist.find? (fun m => m.role == "system") with
      | none => rw [trimHistory_of_find_none hist hfind]
      | some m0 =>
          rw [trimHistory_rebuild hist m0 h hfind, calcLen_eq_sumLen, calcLen_eq_sumLen]
          have hm0mem : m0 ∈ hist.filter (fun m => m.role == "system") :=
            List.mem_filter.mpr ⟨List.mem_of_find?_eq_some hfind,
              by simp [find?_system_role hfind]⟩
          have h1 : msgLen m0 ≤ sumLen (hist.filter (fun m => m.role == "system")) :=
            msgLen_le_sumLen_of_mem hm0mem
          have h2 : sumLen (takeRecentRev targetLength 0
              (hist.filter (fun m => m.role != "system")).reverse)
              ≤ sumLen (hist.filter (fun m => m.role != "system")) := by
            calc sumLen (takeRecentRev targetLength 0
                (hist.filter (fun m => m.role != "system")).reverse)
                ≤ sumLen ((hist.filter (fun m => m.role != "system")).reverse) :=
                  prefixOf_sumLen_le (takeRecentRev_prefixOf _ _ 0)
              _ = sumLen (hist.filter (fun m => m.role != "system")) := sumLen_reverse _
          have h3 := sumLen_filter_add (fun m => m.role == "system") hist
          have hb : hist.filter (fun m : Msg => !(m.role == "system")) =
              hist.filter (fun m : Msg => m.role != "system") := rfl
          rw [hb] at h3
          have hgoal : sumLen (m0 :: (takeRecentRev targetLength 0
              (hist.filter (fun m => m.role != "system")).reverse).reverse) =
              msgLen m0 + sumLen (takeRecentRev targetLength 0
                (hist.filter (fun m => m.role != "system")).reverse) := by
            simp only [sumLen, List.map_cons, List.sum_cons, List.map_reverse]
            rw [List.sum_reverse]
          rw [hgoal]
          omega
  · intro m0 hfind
    by_cases h : calculateHistoryLength hist < TRIM_THRESHOLD
    · rw [trimHistory_of_lt hist h, calcLen_eq_sumLen]
      exact msgLen_le_sumLen_of_mem (List.mem_of_find?_eq_some hfind)
    · rw [trimHistory_rebuild hist m0 h hfind, calcLen_eq_sumLen]
      simp only [sumLen, List.map_cons, List.sum_cons]
      exact Nat.le_add_right _ _

/-- Witness for C7 at a concrete history containing a system message. -/
theorem c7_trim_size_bounds_witness :
    ([Msg.mk "system" (some "sys") none []].find? (fun m => m.role == "system") =
      some (Msg.mk "system" (some "sys") none [])) ∧
    msgLen (Msg.mk "system" (some "sys") none []) ≤
      calculateHistoryLength (trimHistory [Msg.mk "system" (some "sys") none []]) :=
  ⟨rfl, (c7_trim_size_bounds [Msg.mk "system" (some "sys") none []]).2 _ rfl⟩

/-- C2 (code evaluation at the failing input): before initialize the
advertised tool array contains the local describe_image descriptor, but the
assignment inside initialize replaces the array with only the converted
remote tools, so after setup with any remote list not named describe_image
the local descriptor is no longer advertised. -/
theorem c2_initialize_drops_local_descriptors :
    (openAIToolsInitial.any (fun t => t.function.name == "describe_image") = true) ∧
    ((openAIToolsAfterInitialize
        [{ name := "chrome_navigate", description := some "Navigate the browser.",
           inputSchema := none }]).any
      (fun t => t.function.name == "describe_image") = false) :=
  ⟨rfl, rfl⟩

theorem bigA_length : bigA.length = 400000 := by
  have h : bigA.length = (List.replicate 400000 'a').length := rfl
  rw [h, List.length_replicate]

theorem bigB_length : bigB.length = 300000 := by
  have h : bigB.length = (List.replicate 300000 'b').length := rfl
  rw [h, List.length_replicate]

theorem trim_threshold_val : TRIM_THRESHOLD = 640000 := by
  norm_num [TRIM_THRESHOLD, MAX_CONTEXT_CHARS, MAX_CONTEXT_TOKENS, ESTIMATED_CHARS_PER_TOKEN]

theorem target_val : targetLength = 400000 := by
  norm_num [targetLength, MAX_CONTEXT_CHARS, MAX_CONTEXT_TOKENS, ESTIMATED_CHARS_PER_TOKEN]

theorem msgLen_c3user : msgLen c3user = 400000 := by
  have h : msgLen c3user = bigA.length := rfl
  rw [h, bigA_length]

theorem msgLen_c3toolres : msgLen c3toolres = 300000 := by
  have h : msgLen c3toolres = bigB.length := rfl
  rw [h, bigB_length]

theorem sumLen_cons (m : Msg) (l : List Msg) : sumLen (m :: l) = msgLen m + sumLen l := by
  simp [sumLen]

theorem c3hist_len : calculateHistoryLength c3hist = 700000 := by
  rw [calcLen_eq_sumLen]
  show sumLen [c3sys, c3user, c3toolres] = 700000
  rw [sumLen_cons, sumLen_cons, sumLen_cons, msgLen_c3user, msgLen_c3toolres]
  have h0 : msgLen c3sys = 0 := rfl
  have h1 : sumLen [] = 0 := rfl
  rw [h0, h1]

theorem trim_c3hist : trimHistory c3hist = [c3sys, c3user] := by
  have hth : ¬ calculateHistoryLength c3hist < TRIM_THRESHOLD := by
    rw [c3hist_len, trim_threshold_val]
    omega
  have hfind : c3hist.find? (fun m => m.role == "system") = some c3sys := rfl
  rw [trimHistory_rebuild _ _ hth hfind]
  have hfilter : c3hist.filter (fun m => m.role != "system") = [c3user] := rfl
  rw [hfilter]
  have hkeep : takeRecentRev targetLength 0 [c3user].reverse = [c3user].reverse := by
    apply takeRecentRev_eq_self
    rw [sumLen_reverse]
    have h2 : sumLen [c3user] = 400000 := by
      simp [sumLen, msgLen_c3user]
    rw [h2, target_val]
  rw [hkeep]
  simp

theorem trimPerClaim_rebuild (hist : List Msg) (m0 : Msg)
    (hth : ¬ calculateHistoryLength hist < TRIM_THRESHOLD)
    (hfind : hist.find? (fun m => m.role == "system") = some m0) :
    trimPerClaim hist =
      m0 :: (takeRecentRev targetLength 0
        (hist.eraseP (fun m => m.role == "system")).reverse).reverse := by
  unfold trimPerClaim
  simp [hth, hfind]

theorem trimPerClaim_c3hist : trimPerClaim c3hist = [c3sys, c3toolres] := by
  have hth : ¬ calculateHistoryLength c3hist < TRIM_THRESHOLD := by
    rw [c3hist_len, trim_threshold_val]
    omega
  have hfind : c3hist.find? (fun m => m.role == "system") = some c3sys := rfl
  rw [trimPerClaim_rebuild _ _ hth hfind]
  have herase : c3hist.eraseP (fun m => m.role == "system") = [c3user, c3toolres] := rfl
  rw [herase]
  have hr : [c3user, c3toolres].reverse = [c3toolres, c3user] := rfl
  rw [hr]
  have hstep : takeRecentRev targetLength 0 [c3toolres, c3user] = [c3toolres] := by
    simp only [takeRecentRev, msgLen_c3user, msgLen_c3toolres, target_val]
    norm_num
  rw [hstep]
  rfl

/-- C3 counterexample: on a history (reachable in the free-text variant,
whose tool results carry the system role) whose most recent message is a
system-role tool result, the code keeps the older user message and
unconditionally discards the most recent message, while the claim's
rebuild (system instruction followed by the maximal most-recent suffix of
all remaining messages) would keep the recent tool result instead. -/
theorem c3_counterexample : trimHistory c3hist ≠ trimPerClaim c3hist := by
  rw [trim_c3hist, trimPerClaim_c3hist]
  intro h
  have h2 : c3user = c3toolres := by
    injection h with ha hb
    injection hb with hc hd
  have h3 : ("user" : String) = "system" := congrArg Msg.role h2
  exact absurd h3 (by decide)

/-- C3 (amended): below the trigger threshold trimming is a no-op, and at
or above it trimHistory rebuilds the history as the located system message
followed by the maximal most-recent suffix of the non-system-role messages
whose accumulated content length does not exceed the target, in original
order; every other message, including every further system-role message
such as the free-text variant's tool results, is discarded. -/
theorem c3_trim_keeps_recent_nonsystem_suffix :
    (∀ hist : List Msg, calculateHistoryLength hist < TRIM_THRESHOLD →
      trimHistory hist = hist) ∧
    (∀ (hist : List Msg) (m0 : Msg), TRIM_THRESHOLD ≤ calculateHistoryLength hist →
      hist.find? (fun m => m.role == "system") = some m0 →
      ∃ s, trimHistory hist = m0 :: s ∧
        SuffixOf s (hist.filter (fun m => m.role != "system")) ∧
        calculateHistoryLength s ≤ targetLength ∧
        (∀ s2, SuffixOf s2 (hist.filter (fun m => m.role != "system")) →
          calculateHistoryLength s2 ≤ targetLength → s2.length ≤ s.length)) := by
  constructor
  · exact trimHistory_of_lt
  · intro hist m0 hth hfind
    have hth2 : ¬ calculateHistoryLength hist < TRIM_THRESHOLD := by omega
    refine ⟨_, trimHistory_rebuild hist m0 hth2 hfind, ?_, ?_, ?_⟩
    · exact prefixOf_reverse (takeRecentRev_prefixOf _ _ 0)
    · rw [calcLen_eq_sumLen, sumLen_reverse]
      have h := takeRecentRev_sum_le targetLength
        (hist.filter (fun m => m.role != "system")).reverse 0 (Nat.zero_le _)
      omega
    · intro s2 hs2 hlen
      have hp2 : PrefixOf s2.reverse (hist.filter (fun m => m.role != "system")).reverse :=
        suffixOf_reverse hs2
      have hp3 : PrefixOf s2.reverse (takeRecentRev targetLength 0
          (hist.filter (fun m => m.role != "system")).reverse) := by
        apply prefixOf_takeRecentRev targetLength s2.reverse _ 0 hp2
        rw [sumLen_reverse]
        rw [calcLen_eq_sumLen] at hlen
        omega
      have hle := prefixOf_length_le hp3
      simpa using hle

/-- Witness for C3 at concrete histories on both sides of the threshold. -/
theorem c3_trim_keeps_recent_nonsystem_suffix_witness :
    (calculateHistoryLength [c3sys] < TRIM_THRESHOLD ∧ trimHistory [c3sys] = [c3sys]) ∧
    (TRIM_THRESHOLD ≤ calculateHistoryLength c3hist ∧
      ∃ s, trimHistory c3hist = c3sys :: s ∧
        SuffixOf s (c3hist.filter (fun m => m.role != "system")) ∧
        calculateHistoryLength s ≤ targetLength ∧
        (∀ s2, SuffixOf s2 (c3hist.filter (fun m => m.role != "system")) →
          calculateHistoryLength s2 ≤ targetLength → s2.length ≤ s.length)) := by
  have hlt : calculateHistoryLength [c3sys] < TRIM_THRESHOLD := by
    rw [trim_threshold_val]
    have h0 : calculateHistoryLength [c3sys] = 0 := rfl
    rw [h0]
    omega
  have hge : TRIM_THRESHOLD ≤ calculateHistoryLength c3hist := by
    rw [c3hist_len, trim_threshold_val]
    omega
  exact ⟨⟨hlt, c3_trim_keeps_recent_nonsystem_suffix.1 [c3sys] hlt⟩,
    ⟨hge, c3_trim_keeps_recent_nonsystem_suffix.2 c3hist c3sys hge rfl⟩⟩

/-- C9: under the free-text protocol, the done directive with message
hello immediately yields final answer hello with no tool invocation, and
the search directive followed by a done directive yields exactly one
provider dispatch of search with arguments q = x and final answer
found it. -/
theorem c9_free_text_protocol_examples :
    ((FreeText.executeCommand c9envA [sysMsg0] "say hello").message = "hello" ∧
      toolCallEvents (FreeText.executeCommand c9envA [sysMsg0] "say hello").trace = []) ∧
    ((FreeText.executeCommand c9envB [sysMsg0] "find x").message = "found it" ∧
      toolCallEvents (FreeText.executeCommand c9envB [sysMsg0] "find x").trace =
        [("search", Json.obj [("q", Json.str "x")])]) :=
  ⟨⟨rfl, rfl⟩, ⟨rfl, rfl⟩⟩

/-- C1 (code evaluation at the failing input): in the free-text variant a
throwing provider call is swallowed by the same catch that handles
non-JSON assistant output, so the command returns the raw assistant JSON
directive as its final answer, appends no error tool-result message, and
issues no further LLM request. -/
theorem c1_free_text_tool_failure_eval :
    (FreeText.executeCommand c1env [sysMsg0] "search for x").message =
      "\x7b\"tool\": \"search\", \"arguments\": \x7b\"q\": \"x\"\x7d\x7d" ∧
    countToolResultPushes (FreeText.executeCommand c1env [sysMsg0] "search for x").trace = 0 ∧
    countRequests (FreeText.executeCommand c1env [sysMsg0] "search for x").trace = 1 :=
  ⟨rfl, rfl, rfl⟩

theorem endsWithTR_append (a b : List Ev) (hb : b ≠ []) :
    endsWithTR (a ++ b) = endsWithTR b := by
  unfold endsWithTR
  rw [List.getLast?_append]
  cases b with
  | nil => exact absurd rfl hb
  | cons b1 b2 =>
      cases hx : (b1 :: b2).getLast? with
      | none =>
          rw [List.getLast?_eq_none_iff] at hx
          exact absurd hx (by simp)
      | some y => rfl

theorem noOrphan_append : ∀ (a b : List Ev), noOrphanToolResult a = true →
    endsWithTR a = false → noOrphanToolResult b = true →
    noOrphanToolResult (a ++ b) = true := by
  intro a
  induction a with
  | nil => intro b _ _ hb; simpa using hb
  | cons e rest ih =>
      intro b ha hea hb
      cases e with
      | pushToolResult m =>
          cases rest with
          | nil => simp [endsWithTR, List.getLast?] at hea
          | cons e2 rest2 =>
              cases e2 with
              | trimCheck =>
                  simp only [noOrphanToolResult] at ha
                  have hea2 : endsWithTR (Ev.trimCheck :: rest2) = false := by
                    unfold endsWithTR at hea ⊢
                    rwa [List.getLast?_cons_cons] at hea
                  have hres := ih b ha hea2 hb
                  simpa only [List.cons_append, noOrphanToolResult] using hres
              | pushUser m2 => simp [noOrphanToolResult] at ha
              | pushAssistant m2 => simp [noOrphanToolResult] at ha
              | pushToolResult m2 => simp [noOrphanToolResult] at ha
              | request => simp [noOrphanToolResult] at ha
              | toolCall n args => simp [noOrphanToolResult] at ha
      | pushUser m =>
          cases rest with
          | nil => simpa [noOrphanToolResult] using hb
          | cons e2 rest2 =>
              have ha2 : noOrphanToolResult (e2 :: rest2) = true := by
                simpa only [noOrphanToolResult] using ha
              have hea2 : endsWithTR (e2 :: rest2) = false := by
                unfold endsWithTR at hea ⊢
                rwa [List.getLast?_cons_cons] at hea
              have hres := ih b ha2 hea2 hb
              simpa only [List.cons_append, noOrphanToolResult] using hres
      | pushAssistant m =>
          cases rest with
          | nil => simpa [noOrphanToolResult] using hb
          | cons e2 rest2 =>
              have ha2 : noOrphanToolResult (e2 :: rest2) = true := by
                simpa only [noOrphanToolResult] using ha
              have hea2 : endsWithTR (e2 :: rest2) = false := by
                unfold endsWithTR at hea ⊢
                rwa [List.getLast?_cons_cons] at hea
              have hres := ih b ha2 hea2 hb
              simpa only [List.cons_append, noOrphanToolResult] using hres
      | trimCheck =>
          cases rest with
          | nil => simpa [noOrphanToolResult] using hb
          | cons e2 rest2 =>
              have ha2 : noOrphanToolResult (e2 :: rest2) = true := by
                simpa only [noOrphanToolResult] using ha
              have hea2 : endsWithTR (e2 :: rest2) = false := by
                unfold endsWithTR at hea ⊢
                rwa [List.getLast?_cons_cons] at hea
              have hres := ih b ha2 hea2 hb
              simpa only [List.cons_append, noOrphanToolResult] using hres
      | request =>
          cases rest with
          | nil => simpa [noOrphanToolResult] using hb
          | cons e2 rest2 =>
              have ha2 : noOrphanToolResult (e2 :: rest2) = true := by
                simpa only [noOrphanToolResult] using ha
              have hea2 : endsWithTR (e2 :: rest2) = false := by
                unfold endsWithTR at hea ⊢
                rwa [List.getLast?_cons_cons] at hea
              have hres := ih b ha2 hea2 hb
              simpa only [List.cons_append, noOrphanToolResult] using hres
      | toolCall n args =>
          cases rest with
          | nil => simpa [noOrphanToolResult] using hb
          | cons e2 rest2 =>
              have ha2 : noOrphanToolResult (e2 :: rest2) = true := by
                simpa only [noOrphanToolResult] using ha
              have hea2 : endsWithTR (e2 :: rest2) = false := by
                unfold endsWithTR at hea ⊢
                rwa [List.getLast?_cons_cons] at hea
              have hres := ih b ha2 hea2 hb
              simpa only [List.cons_append, noOrphanToolResult] using hres

theorem freeStep_trace (env : FreeText.Env) (entry : Option String) (st : FreeText.LoopState) :
    ∃ b, (FreeText.step env entry st).trace = st.trace ++ b ∧ b ≠ [] ∧
      noOrphanToolResult b = true ∧ endsWithTR b = false := by
  cases hp : jsonParse (FreeText.llmOutputOf entry) with
  | none =>
      refine ⟨[Ev.request, Ev.pushAssistant
        { role := "assistant", content := some (FreeText.llmOutputOf entry) }], ?_, by simp, rfl, rfl⟩
      simp [FreeText.step, hp]
  | some parsed =>
      by_cases hd : FreeText.isDoneTrue parsed = true
      · by_cases hm : jsTruthy (parsed.getField "message") = true
        · refine ⟨[Ev.request, Ev.pushAssistant
            { role := "assistant", content := some (FreeText.llmOutputOf entry) }], ?_, by simp, rfl, rfl⟩
          simp [FreeText.step, hp, hd, hm]
        · refine ⟨[Ev.request, Ev.pushAssistant
            { role := "assistant", content := some (FreeText.llmOutputOf entry) }], ?_, by simp, rfl, rfl⟩
          simp [FreeText.step, hp, hd, hm]
      · by_cases htool : (jsTruthy (parsed.getField "tool") &&
            jsTruthy (parsed.getField "arguments")) = true
        · cases hc : env.callTool (jsCoerceString ((parsed.getField "tool").getD Json.null))
              ((parsed.getField "arguments").getD Json.null) with
          | ok mcpResult =>
              refine ⟨[Ev.request, Ev.pushAssistant
                  { role := "assistant", content := some (FreeText.llmOutputOf entry) },
                Ev.toolCall (jsCoerceString ((parsed.getField "tool").getD Json.null))
                  ((parsed.getField "arguments").getD Json.null),
                Ev.pushToolResult
                  { role := "system",
                    content := some ("Tool execution result:\nTool: " ++
                      jsCoerceString ((parsed.getField "tool").getD Json.null) ++
                      "\nResult: " ++ jsonStringify mcpResult) },
                Ev.trimCheck], ?_, by simp, rfl, rfl⟩
              simp [FreeText.step, hp, hd, htool, hc]
          | error e =>
              refine ⟨[Ev.request, Ev.pushAssistant
                  { role := "assistant", content := some (FreeText.llmOutputOf entry) },
                Ev.toolCall (jsCoerceString ((parsed.getField "tool").getD Json.null))
                  ((parsed.getField "arguments").getD Json.null)], ?_, by simp, rfl, rfl⟩
              simp [FreeText.step, hp, hd, htool, hc]
        · refine ⟨[Ev.request, Ev.pushAssistant
            { role := "assistant", content := some (FreeText.llmOutputOf entry) }], ?_, by simp, rfl, rfl⟩
          simp [FreeText.step, hp, hd, htool]

theorem freeLoop_noOrphan (env : FreeText.Env) : ∀ (fuel : Nat) (script : List (Option String))
    (st : FreeText.LoopState), noOrphanToolResult st.trace = true →
    endsWithTR st.trace = false →
    noOrphanToolResult (FreeText.loop env fuel script st).trace = true := by
  intro fuel
  induction fuel with
  | zero => intro script st h1 _; simpa [FreeText.loop] using h1
  | succ f ih =>
      intro script st h1 h2
      rw [FreeText.loop.eq_def]
      by_cases ht : st.taskComplete = true
      · simpa [ht] using h1
      · have ht2 : st.taskComplete = false := by simpa using ht
        cases script with
        | nil =>
            obtain ⟨b, hbt, hbne, hbno, hbe⟩ := freeStep_trace env none st
            simp only [ht2, Bool.false_eq_true, if_false]
            apply ih
            · rw [hbt]
              exact noOrphan_append _ _ h1 h2 hbno
            · rw [hbt, endsWithTR_append _ _ hbne]
              exact hbe
        | cons e rest =>
            obtain ⟨b, hbt, hbne, hbno, hbe⟩ := freeStep_trace env e st
            simp only [ht2, Bool.false_eq_true, if_false]
            apply ih
            · rw [hbt]
              exact noOrphan_append _ _ h1 h2 hbno
            · rw [hbt, endsWithTR_append _ _ hbne]
              exact hbe

theorem freeLoop_trace_ext (env : FreeText.Env) : ∀ (fuel : Nat)
    (script : List (Option String)) (st : FreeText.LoopState),
    ∃ t, (FreeText.loop env fuel script st).trace = st.trace ++ t := by
  intro fuel
  induction fuel with
  | zero => intro script st; exact ⟨[], by simp [FreeText.loop]⟩
  | succ f ih =>
      intro script st
      rw [FreeText.loop.eq_def]
      by_cases ht : st.taskComplete = true
      · exact ⟨[], by simp [ht]⟩
      · have ht2 : st.taskComplete = false := by simpa using ht
        cases script with
        | nil =>
            obtain ⟨b, hbt, _, _, _⟩ := freeStep_trace env none st
            obtain ⟨t2, ht2b⟩ := ih [] (FreeText.step env none st)
            refine ⟨b ++ t2, ?_⟩
            simp only [ht2, Bool.false_eq_true, if_false]
            rw [ht2b, hbt, List.append_assoc]
        | cons e rest =>
            obtain ⟨b, hbt, _, _, _⟩ := freeStep_trace env e st
            obtain ⟨t2, ht2b⟩ := ih rest (FreeText.step env e st)
            refine ⟨b ++ t2, ?_⟩
            simp only [ht2, Bool.false_eq_true, if_false]
            rw [ht2b, hbt, List.append_assoc]

theorem free_executeCommand_trace (env : FreeText.Env) (hist0 : List Msg) (cmd : String) :
    (FreeText.executeCommand env hist0 cmd).trace =
      (FreeText.loop env 10 env.script
        { hist := trimHistory (hist0 ++ [{ role := "user", content := some cmd }]),
          trace := [Ev.pushUser { role := "user", content := some cmd }, Ev.trimCheck],
          iteration := 0, finalMessage := "", taskComplete := false }).trace := rfl

theorem mcp_executeCommand_trace (env : McpAgent.Env) (hist0 : List Msg) (cmd : String) :
    (McpAgent.executeCommand env hist0 cmd).trace =
      ((McpAgent.loop env 20 env.script
        { hist := trimHistory (hist0 ++ [{ role := "user", content := some cmd }]),
          trace := [Ev.pushUser { role := "user", content := some cmd }, Ev.trimCheck],
          iteration := 0, finalMessage := "" }).state).trace := rfl

theorem prefixOf_trans {α : Type} {a b c : List α} (h1 : PrefixOf a b) (h2 : PrefixOf b c) :
    PrefixOf a c := by
  obtain ⟨t1, ht1⟩ := h1
  obtain ⟨t2, ht2⟩ := h2
  exact ⟨t1 ++ t2, by rw [ht2, ht1, List.append_assoc]⟩

theorem ecf_trace_ext (env : McpAgent.Env) (n : String) (a : Json) (tid : String)
    (st : McpAgent.LoopState) :
    PrefixOf st.trace (McpAgent.executeCustomFunction env n a tid st).trace := by
  by_cases hn : n = "describe_image"
  · cases hv : env.vision ((a.getField "imageUrl").getD Json.null) with
    | ok content => exact ⟨_, by simp [McpAgent.executeCustomFunction, hn, hv]; rfl⟩
    | error e => exact ⟨_, by simp [McpAgent.executeCustomFunction, hn, hv]; rfl⟩
  · exact ⟨[], by simp [McpAgent.executeCustomFunction, hn]⟩

theorem processToolCalls_trace_ext (env : McpAgent.Env) : ∀ (l : List ToolCall)
    (st : McpAgent.LoopState),
    PrefixOf st.trace ((McpAgent.processToolCalls env l st).state).trace := by
  intro l
  induction l with
  | nil =>
      intro st
      exact ⟨[], by simp [McpAgent.processToolCalls, McpAgent.Outcome.state]⟩
  | cons tc rest ih =>
      intro st
      by_cases hty : tc.type = "function"
      · have hty2 : ¬ tc.type ≠ "function" := by simp [hty]
        cases hp : jsonParse tc.function.arguments with
        | none =>
            exact ⟨[], by simp [McpAgent.processToolCalls, hty2, hp, McpAgent.Outcome.state]⟩
        | some args =>
            by_cases hcust : isCustomFunction tc.function.name = true
            · have hstep : (McpAgent.processToolCalls env (tc :: rest) st) =
                  McpAgent.processToolCalls env rest
                    (McpAgent.executeCustomFunction env tc.function.name args tc.id st) := by
                simp [McpAgent.processToolCalls, hty2, hp, hcust]
              rw [hstep]
              exact prefixOf_trans (ecf_trace_ext env tc.function.name args tc.id st) (ih _)
            · have hcust2 : isCustomFunction tc.function.name = false := by
                simpa using hcust
              cases hc : env.callTool tc.function.name args with
              | ok r =>
                  have hstep : (McpAgent.processToolCalls env (tc :: rest) st) =
                      McpAgent.processToolCalls env rest
                        { st with
                          hist := st.hist ++
                            [{ role := "tool",
                               content := some
                                 (((jsonStringify r).replace "\\" "").replace "&quot;" "\""),
                               tool_call_id := some tc.id }],
                          trace := (st.trace ++ [Ev.toolCall tc.function.name args]) ++
                            [Ev.pushToolResult
                              { role := "tool",
                                content := some
                                  (((jsonStringify r).replace "\\" "").replace "&quot;" "\""),
                                tool_call_id := some tc.id }] } := by
                    simp [McpAgent.processToolCalls, hty2, hp, hcust2, hc]
                  rw [hstep]
                  refine prefixOf_trans ?_ (ih _)
                  exact ⟨_, by simp; rfl⟩
              | error e =>
                  have hstep : (McpAgent.processToolCalls env (tc :: rest) st) =
                      McpAgent.processToolCalls env rest
                        { st with
                          hist := st.hist ++
                            [{ role := "tool",
                               content := some (jsonStringify
                                 (Json.obj [("error", Json.bool true),
                                   ("message", Json.str e)])),
                               tool_call_id := some tc.id }],
                          trace := (st.trace ++ [Ev.toolCall tc.function.name args]) ++
                            [Ev.pushToolResult
                              { role := "tool",
                                content := some (jsonStringify
                                  (Json.obj [("error", Json.bool true),
                                    ("message", Json.str e)])),
                                tool_call_id := some tc.id }] } := by
                    simp [McpAgent.processToolCalls, hty2, hp, hcust2, hc]
                  rw [hstep]
                  refine prefixOf_trans ?_ (ih _)
                  exact ⟨_, by simp; rfl⟩
      · have hty2 : tc.type ≠ "function" := hty
        have hstep : (McpAgent.processToolCalls env (tc :: rest) st) =
            McpAgent.processToolCalls env rest st := by
          simp [McpAgent.processToolCalls, hty2]
        rw [hstep]
        exact ih st

theorem structLoop_toolbranch_ext (env : McpAgent.Env) (f : Nat)
    (scr : List (Option McpAgent.LLMMessage)) (st2 : McpAgent.LoopState) (l : List ToolCall)
    (ih : ∀ st, PrefixOf st.trace ((McpAgent.loop env f scr st).state).trace) :
    PrefixOf st2.trace
      ((match McpAgent.processToolCalls env l st2 with
        | McpAgent.Outcome.ok st3 => McpAgent.loop env f scr st3
        | McpAgent.Outcome.err e st3 => McpAgent.Outcome.err e st3).state).trace := by
  cases hpt : McpAgent.processToolCalls env l st2 with
  | ok st3 =>
      have h1 : PrefixOf st2.trace st3.trace := by
        have h0 := processToolCalls_trace_ext env l st2
        rw [hpt] at h0
        simpa [McpAgent.Outcome.state] using h0
      exact prefixOf_trans h1 (ih st3)
  | err e st3 =>
      have h0 := processToolCalls_trace_ext env l st2
      rw [hpt] at h0
      simpa [McpAgent.Outcome.state] using h0

theorem structLoop_trace_ext (env : McpAgent.Env) : ∀ (fuel : Nat)
    (script : List (Option McpAgent.LLMMessage)) (st : McpAgent.LoopState),
    PrefixOf st.trace ((McpAgent.loop env fuel script st).state).trace := by
  intro fuel
  induction fuel with
  | zero => intro script st; exact ⟨[], by simp [McpAgent.loop, McpAgent.Outcome.state]⟩
  | succ f ih =>
      intro script st
      rw [McpAgent.loop.eq_def]
      cases he : headEntry script with
      | none => exact ⟨_, by simp [he, McpAgent.Outcome.state]; rfl⟩
      | some message =>
          by_cases htc : message.tool_calls.isEmpty = true
          · cases hmc : message.content with
            | some c =>
                by_cases hce : c = ""
                · exact ⟨_, by simp [he, htc, hmc, hce, McpAgent.Outcome.state]; rfl⟩
                · exact ⟨_, by simp [he, htc, hmc, hce, McpAgent.Outcome.state]; rfl⟩
            | none => exact ⟨_, by simp [he, htc, hmc, McpAgent.Outcome.state]; rfl⟩
          · have htc2 : message.tool_calls.isEmpty = false := by simpa using htc
            simp only [he, htc2, Bool.false_eq_true, if_false]
            refine prefixOf_trans ?_
              (structLoop_toolbranch_ext env f script.tail _ message.tool_calls (ih script.tail))
            exact ⟨_, by simp; rfl⟩

/-- C4 (amended): in both protocol variants the trimming check runs
immediately after the user command is appended, and in the free-text
variant every tool-result append is also immediately followed by a
trimming check; the structured variant appends tool results without a
subsequent trimming check. -/
theorem c4_trim_invocation_points :
    (∀ (env : McpAgent.Env) (hist0 : List Msg) (cmd : String), ∃ t,
      (McpAgent.executeCommand env hist0 cmd).trace =
        Ev.pushUser { role := "user", content := some cmd } :: Ev.trimCheck :: t) ∧
    (∀ (env : FreeText.Env) (hist0 : List Msg) (cmd : String), ∃ t,
      (FreeText.executeCommand env hist0 cmd).trace =
        Ev.pushUser { role := "user", content := some cmd } :: Ev.trimCheck :: t) ∧
    (∀ (env : FreeText.Env) (hist0 : List Msg) (cmd : String),
      noOrphanToolResult (FreeText.executeCommand env hist0 cmd).trace = true) := by
  refine ⟨?_, ?_, ?_⟩
  · intro env hist0 cmd
    rw [mcp_executeCommand_trace]
    obtain ⟨t, ht⟩ := structLoop_trace_ext env 20 env.script
      { hist := trimHistory (hist0 ++ [{ role := "user", content := some cmd }]),
        trace := [Ev.pushUser { role := "user", content := some cmd }, Ev.trimCheck],
        iteration := 0, finalMessage := "" }
    exact ⟨t, by simpa using ht⟩
  · intro env hist0 cmd
    rw [free_executeCommand_trace]
    obtain ⟨t, ht⟩ := freeLoop_trace_ext env 10 env.script
      { hist := trimHistory (hist0 ++ [{ role := "user", content := some cmd }]),
        trace := [Ev.pushUser { role := "user", content := some cmd }, Ev.trimCheck],
        iteration := 0, finalMessage := "", taskComplete := false }
    exact ⟨t, by simpa using ht⟩
  · intro env hist0 cmd
    rw [free_executeCommand_trace]
    exact freeLoop_noOrphan env 10 env.script _ rfl rfl

/-- C4 counterexample: a structured-variant run that appends a tool result
and performs no trimming check before the next LLM request, refuting the
claim that trimming is checked after every tool-result append in both
protocol variants. -/
theorem c4_structured_counterexample :
    noOrphanToolResult (McpAgent.executeCommand c4env [sysMsg0] "find x").trace = false := rfl

theorem freeStep_looping (env : FreeText.Env) (e : Option String) (st : FreeText.LoopState)
    (h : freeLoopingB env e = true) :
    (FreeText.step env e st).finalMessage = st.finalMessage ∧
    (FreeText.step env e st).taskComplete = st.taskComplete ∧
    (FreeText.step env e st).iteration = st.iteration + 1 := by
  unfold freeLoopingB at h
  cases hp : jsonParse (FreeText.llmOutputOf e) with
  | none => rw [hp] at h; simp at h
  | some parsed =>
      rw [hp] at h
      simp only [Bool.and_eq_true, Bool.not_eq_true'] at h
      obtain ⟨⟨⟨hd, ht1⟩, ht2⟩, hc0⟩ := h
      cases hc : env.callTool (jsCoerceString ((parsed.getField "tool").getD Json.null))
          ((parsed.getField "arguments").getD Json.null) with
      | ok r =>
          refine ⟨?_, ?_, ?_⟩ <;>
            simp [FreeText.step, hp, hd, ht1, ht2, hc]
      | error e2 => rw [hc] at hc0; simp at hc0

theorem freeStep_degen (env : FreeText.Env) (e : Option String) (st : FreeText.LoopState)
    (h : freeDegenerateB e = true) :
    (FreeText.step env e st).finalMessage = st.finalMessage ∧
    (FreeText.step env e st).taskComplete = true := by
  unfold freeDegenerateB at h
  cases hp : jsonParse (FreeText.llmOutputOf e) with
  | none => rw [hp] at h; simp at h
  | some parsed =>
      rw [hp] at h
      by_cases hd : FreeText.isDoneTrue parsed = true
      · have hmsg2 : parsed.getField "message" = none := by
          simp [hd] at h
          exact h
        have htr : jsTruthy (parsed.getField "message") = false := by
          rw [hmsg2]; rfl
        constructor <;> simp [FreeText.step, hp, hd, htr]
      · have hd2 : FreeText.isDoneTrue parsed = false := by simpa using hd
        have hta : (jsTruthy (parsed.getField "tool") &&
            jsTruthy (parsed.getField "arguments")) = false := by
          simp [hd2] at h
          rcases h with h | h <;> simp [h]
        constructor <;> simp [FreeText.step, hp, hd2, hta]

theorem freeLoop_taskComplete (env : FreeText.Env) : ∀ (f : Nat)
    (script : List (Option String)) (st : FreeText.LoopState),
    st.taskComplete = true → FreeText.loop env f script st = st := by
  intro f
  induction f with
  | zero => intro script st _; rfl
  | succ f _ =>
      intro script st h
      rw [FreeText.loop.eq_def]
      simp [h]

theorem freeLoop_looping (env : FreeText.Env) : ∀ (f : Nat)
    (script : List (Option String)) (st : FreeText.LoopState),
    st.taskComplete = false →
    (∀ i, i < f → freeLoopingB env (headEntry (script.drop i)) = true) →
    (FreeText.loop env f script st).finalMessage = st.finalMessage ∧
    (FreeText.loop env f script st).taskComplete = false ∧
    (FreeText.loop env f script st).iteration = st.iteration + f := by
  intro f
  induction f with
  | zero =>
      intro script st h _
      refine ⟨rfl, h, rfl⟩
  | succ f ih =>
      intro script st h hpre
      have h0 := hpre 0 (Nat.succ_pos f)
      rw [List.drop_zero] at h0
      rw [FreeText.loop.eq_def]
      simp only [h, Bool.false_eq_true, if_false]
      cases script with
      | nil =>
          rw [show headEntry ([] : List (Option String)) = none from rfl] at h0
          rw [show freeLoopingB env none = false from rfl] at h0
          simp at h0
      | cons e rest =>
          rw [show headEntry (e :: rest) = e from rfl] at h0
          obtain ⟨hf1, ht1, hi1⟩ := freeStep_looping env e st h0
          have htc : (FreeText.step env e st).taskComplete = false := by rw [ht1]; exact h
          have hpre2 : ∀ i, i < f → freeLoopingB env (headEntry (rest.drop i)) = true := by
            intro i hi
            exact hpre (i + 1) (Nat.succ_lt_succ hi)
          obtain ⟨ha, hb, hc⟩ := ih rest (FreeText.step env e st) htc hpre2
          refine ⟨?_, ?_, ?_⟩
          · rw [ha, hf1]
          · rw [hb]
          · rw [hc, hi1]
            omega

theorem freeLoop_degen (env : FreeText.Env) : ∀ (k f : Nat)
    (script : List (Option String)) (st : FreeText.LoopState),
    st.taskComplete = false → k < f →
    (∀ i, i < k → freeLoopingB env (headEntry (script.drop i)) = true) →
    freeDegenerateB (headEntry (script.drop k)) = true →
    (FreeText.loop env f script st).finalMessage = st.finalMessage ∧
    (FreeText.loop env f script st).taskComplete = true := by
  intro k
  induction k with
  | zero =>
      intro f script st h hf _ hdeg
      rw [List.drop_zero] at hdeg
      cases f with
      | zero => omega
      | succ f2 =>
          rw [FreeText.loop.eq_def]
          simp only [h, Bool.false_eq_true, if_false]
          cases script with
          | nil =>
              rw [show headEntry ([] : List (Option String)) = none from rfl] at hdeg
              rw [show freeDegenerateB none = false from rfl] at hdeg
              simp at hdeg
          | cons e rest =>
              rw [show headEntry (e :: rest) = e from rfl] at hdeg
              obtain ⟨hf1, ht1⟩ := freeStep_degen env e st hdeg
              show (FreeText.loop env f2 rest (FreeText.step env e st)).finalMessage =
                    st.finalMessage ∧
                  (FreeText.loop env f2 rest (FreeText.step env e st)).taskComplete = true
              rw [freeLoop_taskComplete env f2 rest (FreeText.step env e st) ht1]
              exact ⟨hf1, ht1⟩
  | succ k ih =>
      intro f script st h hf hpre hdeg
      cases f with
      | zero => omega
      | succ f2 =>
          have h0 := hpre 0 (Nat.succ_pos k)
          rw [List.drop_zero] at h0
          rw [FreeText.loop.eq_def]
          simp only [h, Bool.false_eq_true, if_false]
          cases script with
          | nil =>
              rw [show headEntry ([] : List (Option String)) = none from rfl] at h0
              rw [show freeLoopingB env none = false from rfl] at h0
              simp at h0
          | cons e rest =>
              rw [show headEntry (e :: rest) = e from rfl] at h0
              obtain ⟨hf1, ht1, _⟩ := freeStep_looping env e st h0
              have htc : (FreeText.step env e st).taskComplete = false := by rw [ht1]; exact h
              have hpre2 : ∀ i, i < k → freeLoopingB env (headEntry (rest.drop i)) = true := by
                intro i hi
                exact hpre (i + 1) (Nat.succ_lt_succ hi)
              have hdeg2 : freeDegenerateB (headEntry (rest.drop k)) = true := hdeg
              obtain ⟨ha, hb⟩ := ih f2 rest (FreeText.step env e st) htc (by omega) hpre2 hdeg2
              show (FreeText.loop env f2 rest (FreeText.step env e st)).finalMessage =
                    st.finalMessage ∧
                  (FreeText.loop env f2 rest (FreeText.step env e st)).taskComplete = true
              refine ⟨?_, hb⟩
              rw [ha, hf1]

theorem ecf_preserves (env : McpAgent.Env) (n : String) (a : Json) (tid : String)
    (st : McpAgent.LoopState) :
    (McpAgent.executeCustomFunction env n a tid st).finalMessage = st.finalMessage ∧
    (McpAgent.executeCustomFunction env n a tid st).iteration = st.iteration := by
  by_cases hn : n = "describe_image"
  · cases hv : env.vision ((a.getField "imageUrl").getD Json.null) with
    | ok content => constructor <;> simp [McpAgent.executeCustomFunction, hn, hv]
    | error e => constructor <;> simp [McpAgent.executeCustomFunction, hn, hv]
  · constructor <;> simp [McpAgent.executeCustomFunction, hn]

theorem processToolCalls_ok (env : McpAgent.Env) : ∀ (l : List ToolCall)
    (st : McpAgent.LoopState),
    (∀ tc ∈ l, tc.type = "function" → (jsonParse tc.function.arguments).isSome = true) →
    ∃ st2, McpAgent.processToolCalls env l st = McpAgent.Outcome.ok st2 ∧
      st2.finalMessage = st.finalMessage ∧ st2.iteration = st.iteration := by
  intro l
  induction l with
  | nil => intro st _; exact ⟨st, rfl, rfl, rfl⟩
  | cons tc rest ih =>
      intro st h
      by_cases hty : tc.type = "function"
      · have hty2 : ¬ tc.type ≠ "function" := by simp [hty]
        have hps : (jsonParse tc.function.arguments).isSome = true := h tc (by simp) hty
        cases hp : jsonParse tc.function.arguments with
        | none => rw [hp] at hps; simp at hps
        | some args =>
            have hrest0 : ∀ tc2 ∈ rest, tc2.type = "function" →
                (jsonParse tc2.function.arguments).isSome = true := by
              intro tc2 htc2 hty3
              exact h tc2 (by simp [htc2]) hty3
            by_cases hcust : isCustomFunction tc.function.name = true
            · obtain ⟨st2, he, hf, hi⟩ :=
                ih (McpAgent.executeCustomFunction env tc.function.name args tc.id st) hrest0
              have hstep : McpAgent.processToolCalls env (tc :: rest) st =
                  McpAgent.processToolCalls env rest
                    (McpAgent.executeCustomFunction env tc.function.name args tc.id st) := by
                simp [McpAgent.processToolCalls, hty2, hp, hcust]
              refine ⟨st2, by rw [hstep]; exact he, ?_, ?_⟩
              · rw [hf]
                exact (ecf_preserves env tc.function.name args tc.id st).1
              · rw [hi]
                exact (ecf_preserves env tc.function.name args tc.id st).2
            · have hcust2 : isCustomFunction tc.function.name = false := by simpa using hcust
              cases hc : env.callTool tc.function.name args with
              | ok r =>
                  obtain ⟨st2, he, hf, hi⟩ := ih
                    { st with
                      hist := st.hist ++
                        [{ role := "tool",
                           content := some
                             (((jsonStringify r).replace "\\" "").replace "&quot;" "\""),
                           tool_call_id := some tc.id }],
                      trace := (st.trace ++ [Ev.toolCall tc.function.name args]) ++
                        [Ev.pushToolResult
                          { role := "tool",
                            content := some
                              (((jsonStringify r).replace "\\" "").replace "&quot;" "\""),
                            tool_call_id := some tc.id }] } hrest0
                  have hstep : McpAgent.processToolCalls env (tc :: rest) st =
                      McpAgent.processToolCalls env rest
                        { st with
                          hist := st.hist ++
                            [{ role := "tool",
                               content := some
                                 (((jsonStringify r).replace "\\" "").replace "&quot;" "\""),
                               tool_call_id := some tc.id }],
                          trace := (st.trace ++ [Ev.toolCall tc.function.name args]) ++
                            [Ev.pushToolResult
                              { role := "tool",
                                content := some
                                  (((jsonStringify r).replace "\\" "").replace "&quot;" "\""),
                                tool_call_id := some tc.id }] } := by
                    simp [McpAgent.processToolCalls, hty2, hp, hcust2, hc]
                  exact ⟨st2, by rw [hstep]; exact he, by simpa using hf, by simpa using hi⟩
              | error e =>
                  obtain ⟨st2, he, hf, hi⟩ := ih
                    { st with
                      hist := st.hist ++
                        [{ role := "tool",
                           content := some (jsonStringify
                             (Json.obj [("error", Json.bool true), ("message", Json.str e)])),
                           tool_call_id := some tc.id }],
                      trace := (st.trace ++ [Ev.toolCall tc.function.name args]) ++
                        [Ev.pushToolResult
                          { role := "tool",
                            content := some (jsonStringify
                              (Json.obj [("error", Json.bool true), ("message", Json.str e)])),
                            tool_call_id := some tc.id }] } hrest0
                  have hstep : McpAgent.processToolCalls env (tc :: rest) st =
                      McpAgent.processToolCalls env rest
                        { st with
                          hist := st.hist ++
                            [{ role := "tool",
                               content := some (jsonStringify
                                 (Json.obj [("error", Json.bool true), ("message", Json.str e)])),
                               tool_call_id := some tc.id }],
                          trace := (st.trace ++ [Ev.toolCall tc.function.name args]) ++
                            [Ev.pushToolResult
                              { role := "tool",
                                content := some (jsonStringify
                                  (Json.obj [("error", Json.bool true), ("message", Json.str e)])),
                                tool_call_id := some tc.id }] } := by
                    simp [McpAgent.processToolCalls, hty2, hp, hcust2, hc]
                  exact ⟨st2, by rw [hstep]; exact he, by simpa using hf, by simpa using hi⟩
      · have hrest0 : ∀ tc2 ∈ rest, tc2.type = "function" →
            (jsonParse tc2.function.arguments).isSome = true := by
          intro tc2 htc2 hty3
          exact h tc2 (by simp [htc2]) hty3
        obtain ⟨st2, he, hf, hi⟩ := ih st hrest0
        have hstep : McpAgent.processToolCalls env (tc :: rest) st =
            McpAgent.processToolCalls env rest st := by
          simp [McpAgent.processToolCalls, hty]
        exact ⟨st2, by rw [hstep]; exact he, hf, hi⟩

theorem structLoop_succ_tool (env : McpAgent.Env) (f : Nat)
    (script : List (Option McpAgent.LLMMessage)) (st : McpAgent.LoopState)
    (message : McpAgent.LLMMessage)
    (he : headEntry script = some message)
    (hne : message.tool_calls.isEmpty = false) :
    McpAgent.loop env (f + 1) script st =
      (match McpAgent.processToolCalls env message.tool_calls
          { hist := st.hist ++ [{ role := "assistant", content := message.content,
                                  tool_calls := message.tool_calls }],
            trace := (st.trace ++ [Ev.request]) ++ [Ev.pushAssistant
              { role := "assistant", content := message.content,
                tool_calls := message.tool_calls }],
            iteration := st.iteration + 1, finalMessage := st.finalMessage } with
        | McpAgent.Outcome.ok st3 => McpAgent.loop env f script.tail st3
        | McpAgent.Outcome.err e st3 => McpAgent.Outcome.err e st3) := by
  rw [McpAgent.loop.eq_def]
  simp [he, hne]

theorem structLoop_looping (env : McpAgent.Env) : ∀ (f : Nat)
    (script : List (Option McpAgent.LLMMessage)) (st : McpAgent.LoopState),
    (∀ i, i < f → structLoopingB (headEntry (script.drop i)) = true) →
    ∃ st2, McpAgent.loop env f script st = McpAgent.Outcome.ok st2 ∧
      st2.finalMessage = st.finalMessage ∧ st2.iteration = st.iteration + f := by
  intro f
  induction f with
  | zero => intro script st _; exact ⟨st, rfl, rfl, rfl⟩
  | succ f ih =>
      intro script st h
      have h0 := h 0 (Nat.succ_pos f)
      rw [List.drop_zero] at h0
      cases he : headEntry script with
      | none => rw [he] at h0; simp [structLoopingB] at h0
      | some message =>
          rw [he] at h0
          have hne : message.tool_calls.isEmpty = false := by
            cases hxx : message.tool_calls.isEmpty with
            | false => rfl
            | true => rw [show structLoopingB (some message) =
                (!message.tool_calls.isEmpty &&
                  message.tool_calls.all (fun tc => (tc.type != "function") ||
                    (jsonParse tc.function.arguments).isSome)) from rfl, hxx] at h0; simp at h0
          have hall : ∀ tc ∈ message.tool_calls, tc.type = "function" →
              (jsonParse tc.function.arguments).isSome = true := by
            intro tc htc hty
            have hb : message.tool_calls.all (fun tc => (tc.type != "function") ||
                (jsonParse tc.function.arguments).isSome) = true := by
              rw [show structLoopingB (some message) =
                (!message.tool_calls.isEmpty &&
                  message.tool_calls.all (fun tc => (tc.type != "function") ||
                    (jsonParse tc.function.arguments).isSome)) from rfl] at h0
              simp only [Bool.and_eq_true] at h0
              exact h0.2
            have h2 := List.all_eq_true.mp hb tc htc
            simpa [hty] using h2
          obtain ⟨st3, hpt, hf3, hi3⟩ := processToolCalls_ok env message.tool_calls
            { hist := st.hist ++ [{ role := "assistant", content := message.content,
                                    tool_calls := message.tool_calls }],
              trace := (st.trace ++ [Ev.request]) ++ [Ev.pushAssistant
                { role := "assistant", content := message.content,
                  tool_calls := message.tool_calls }],
              iteration := st.iteration + 1, finalMessage := st.finalMessage } hall
          have hpre2 : ∀ i, i < f → structLoopingB (headEntry (script.tail.drop i)) = true := by
            intro i hi
            have := h (i + 1) (Nat.succ_lt_succ hi)
            rwa [show script.drop (i + 1) = script.tail.drop i from by
              rw [← List.drop_one, List.drop_drop]
              congr 1
              omega] at this
          obtain ⟨st2, hl, hf2, hi2⟩ := ih script.tail st3 hpre2
          refine ⟨st2, ?_, ?_, ?_⟩
          · rw [structLoop_succ_tool env f script st message he hne, hpt]
            exact hl
          · rw [hf2, hf3]
          · rw [hi2, hi3]
            show st.iteration + 1 + f = st.iteration + (f + 1)
            omega

theorem structLoop_succ_none (env : McpAgent.Env) (f : Nat)
    (script : List (Option McpAgent.LLMMessage)) (st : McpAgent.LoopState)
    (he : headEntry script = none) :
    McpAgent.loop env (f + 1) script st =
      McpAgent.Outcome.ok
        { st with
          iteration := st.iteration + 1,
          trace := st.trace ++ [Ev.request] } := by
  rw [McpAgent.loop.eq_def]
  simp [he]

theorem structLoop_succ_break (env : McpAgent.Env) (f : Nat)
    (script : List (Option McpAgent.LLMMessage)) (st : McpAgent.LoopState)
    (message : McpAgent.LLMMessage)
    (he : headEntry script = some message)
    (htc : message.tool_calls.isEmpty = true)
    (hdeg : (match message.content with | none => true | some c => c == "") = true) :
    McpAgent.loop env (f + 1) script st =
      McpAgent.Outcome.ok
        { st with
          iteration := st.iteration + 1,
          hist := st.hist ++ [{ role := "assistant", content := message.content,
                                tool_calls := message.tool_calls }],
          trace := (st.trace ++ [Ev.request]) ++ [Ev.pushAssistant
            { role := "assistant", content := message.content,
              tool_calls := message.tool_calls }] } := by
  rw [McpAgent.loop.eq_def]
  cases hmc : message.content with
  | none => simp [he, htc, hmc]
  | some c =>
      rw [hmc] at hdeg
      have hce : c = "" := by simpa using hdeg
      simp [he, htc, hmc, hce]

theorem structLoopingB_elim (message : McpAgent.LLMMessage)
    (h : structLoopingB (some message) = true) :
    message.tool_calls.isEmpty = false ∧
    (∀ tc ∈ message.tool_calls, tc.type = "function" →
      (jsonParse tc.function.arguments).isSome = true) := by
  rw [show structLoopingB (some message) =
      (!message.tool_calls.isEmpty &&
        message.tool_calls.all (fun tc => (tc.type != "function") ||
          (jsonParse tc.function.arguments).isSome)) from rfl] at h
  simp only [Bool.and_eq_true, Bool.not_eq_true'] at h
  refine ⟨h.1, ?_⟩
  intro tc htc hty
  have h2 := List.all_eq_true.mp h.2 tc htc
  simpa [hty] using h2

theorem structLoop_degen (env : McpAgent.Env) : ∀ (k f : Nat)
    (script : List (Option McpAgent.LLMMessage)) (st : McpAgent.LoopState), k < f →
    (∀ i, i < k → structLoopingB (headEntry (script.drop i)) = true) →
    structDegenerateB (headEntry (script.drop k)) = true →
    ∃ st2, McpAgent.loop env f script st = McpAgent.Outcome.ok st2 ∧
      st2.finalMessage = st.finalMessage ∧ st2.iteration = st.iteration + (k + 1) := by
  intro k
  induction k with
  | zero =>
      intro f script st hf _ hdeg
      cases f with
      | zero => omega
      | succ f2 =>
          rw [List.drop_zero] at hdeg
          cases he : headEntry script with
          | none => exact ⟨_, structLoop_succ_none env f2 script st he, rfl, rfl⟩
          | some message =>
              rw [he] at hdeg
              rw [show structDegenerateB (some message) =
                  (message.tool_calls.isEmpty &&
                    (match message.content with | none => true | some c => c == "")) from
                  rfl] at hdeg
              simp only [Bool.and_eq_true] at hdeg
              exact ⟨_, structLoop_succ_break env f2 script st message he hdeg.1 hdeg.2,
                rfl, rfl⟩
  | succ k ih =>
      intro f script st hf hpre hdeg
      cases f with
      | zero => omega
      | succ f2 =>
          have h0 := hpre 0 (Nat.succ_pos k)
          rw [List.drop_zero] at h0
          cases he : headEntry script with
          | none => rw [he] at h0; simp [structLoopingB] at h0
          | some message =>
              rw [he] at h0
              obtain ⟨hne, hall⟩ := structLoopingB_elim message h0
              obtain ⟨st3, hpt, hf3, hi3⟩ := processToolCalls_ok env message.tool_calls
                { hist := st.hist ++ [{ role := "assistant", content := message.content,
                                        tool_calls := message.tool_calls }],
                  trace := (st.trace ++ [Ev.request]) ++ [Ev.pushAssistant
                    { role := "assistant", content := message.content,
                      tool_calls := message.tool_calls }],
                  iteration := st.iteration + 1, finalMessage := st.finalMessage } hall
              have hpre2 : ∀ i, i < k →
                  structLoopingB (headEntry (script.tail.drop i)) = true := by
                intro i hi
                have := hpre (i + 1) (Nat.succ_lt_succ hi)
                rwa [show script.drop (i + 1) = script.tail.drop i from by
                  rw [← List.drop_one, List.drop_drop]
                  congr 1
                  omega] at this
              have hdeg2 : structDegenerateB (headEntry (script.tail.drop k)) = true := by
                rwa [show script.drop (k + 1) = script.tail.drop k from by
                  rw [← List.drop_one, List.drop_drop]
                  congr 1
                  omega] at hdeg
              obtain ⟨st2, hl, hf2, hi2⟩ := ih f2 script.tail st3 (by omega) hpre2 hdeg2
              refine ⟨st2, ?_, ?_, ?_⟩
              · rw [structLoop_succ_tool env f2 script st message he hne, hpt]
                exact hl
              · rw [hf2, hf3]
              · rw [hi2, hi3]
                show st.iteration + 1 + (k + 1) = st.iteration + (k + 1 + 1)
                omega

theorem mcp_executeCommand_retval (env : McpAgent.Env) (hist0 : List Msg) (cmd : String)
    (st2 : McpAgent.LoopState)
    (hl : McpAgent.loop env 20 env.script
      { hist := trimHistory (hist0 ++ [{ role := "user", content := some cmd }]),
        trace := [Ev.pushUser { role := "user", content := some cmd }, Ev.trimCheck],
        iteration := 0, finalMessage := "" } = McpAgent.Outcome.ok st2) :
    (McpAgent.executeCommand env hist0 cmd).retval =
      Except.ok (if 20 ≤ st2.iteration then
        (if st2.finalMessage = "" then "Maximum iterations reached. Task may be incomplete."
         else st2.finalMessage)
       else st2.finalMessage) := by
  simp only [McpAgent.executeCommand]
  rw [hl]
  simp [McpAgent.Outcome.state]

theorem free_executeCommand_message (env : FreeText.Env) (hist0 : List Msg) (cmd : String) :
    (FreeText.executeCommand env hist0 cmd).message =
      (if 10 ≤ (FreeText.loop env 10 env.script
            { hist := trimHistory (hist0 ++ [{ role := "user", content := some cmd }]),
              trace := [Ev.pushUser { role := "user", content := some cmd }, Ev.trimCheck],
              iteration := 0, finalMessage := "", taskComplete := false }).iteration ∧
          (FreeText.loop env 10 env.script
            { hist := trimHistory (hist0 ++ [{ role := "user", content := some cmd }]),
              trace := [Ev.pushUser { role := "user", content := some cmd }, Ev.trimCheck],
              iteration := 0, finalMessage := "", taskComplete := false }).taskComplete = false
        then "Maximum iterations reached. Task may be incomplete."
        else (FreeText.loop env 10 env.script
            { hist := trimHistory (hist0 ++ [{ role := "user", content := some cmd }]),
              trace := [Ev.pushUser { role := "user", content := some cmd }, Ev.trimCheck],
              iteration := 0, finalMessage := "", taskComplete := false }).finalMessage) := rfl

/-- C8: when every LLM response keeps the loop running (the structured
variant receives tool calls with parseable arguments on all 20 rounds, the
free-text variant a well-formed tool directive with a succeeding provider
call on all 10 rounds), executeCommand returns the canned maximum
iterations message rather than raising an error. -/
theorem c8_iteration_cap_yields_canned_message :
    (∀ (env : McpAgent.Env) (hist0 : List Msg) (cmd : String),
      (∀ i, i < 20 → structLoopingB (headEntry (env.script.drop i)) = true) →
      (McpAgent.executeCommand env hist0 cmd).retval =
        Except.ok "Maximum iterations reached. Task may be incomplete.") ∧
    (∀ (env : FreeText.Env) (hist0 : List Msg) (cmd : String),
      (∀ i, i < 10 → freeLoopingB env (headEntry (env.script.drop i)) = true) →
      (FreeText.executeCommand env hist0 cmd).message =
        "Maximum iterations reached. Task may be incomplete.") := by
  constructor
  · intro env hist0 cmd h
    obtain ⟨st2, hl, hf, hi⟩ := structLoop_looping env 20 env.script
      { hist := trimHistory (hist0 ++ [{ role := "user", content := some cmd }]),
        trace := [Ev.pushUser { role := "user", content := some cmd }, Ev.trimCheck],
        iteration := 0, finalMessage := "" } h
    rw [mcp_executeCommand_retval env hist0 cmd st2 hl]
    have hi2 : 20 ≤ st2.iteration := by rw [hi]
    have hf2 : st2.finalMessage = "" := by rw [hf]
    rw [if_pos hi2, hf2, if_pos rfl]
  · intro env hist0 cmd h
    obtain ⟨hf, ht, hi⟩ := freeLoop_looping env 10 env.script
      { hist := trimHistory (hist0 ++ [{ role := "user", content := some cmd }]),
        trace := [Ev.pushUser { role := "user", content := some cmd }, Ev.trimCheck],
        iteration := 0, finalMessage := "", taskComplete := false } rfl h
    rw [free_executeCommand_message]
    have hcond : 10 ≤ (FreeText.loop env 10 env.script
        { hist := trimHistory (hist0 ++ [{ role := "user", content := some cmd }]),
          trace := [Ev.pushUser { role := "user", content := some cmd }, Ev.trimCheck],
          iteration := 0, finalMessage := "", taskComplete := false }).iteration := by
      rw [hi]
    rw [if_pos ⟨hcond, ht⟩]

/-- Witness for C8: scripts that request one tool call on every round in
each variant, hitting the cap and receiving the canned message. -/
theorem c8_iteration_cap_yields_canned_message_witness :
    ((∀ i, i < 20 → structLoopingB (headEntry (c8structEnv.script.drop i)) = true) ∧
      (McpAgent.executeCommand c8structEnv [sysMsg0] "do it").retval =
        Except.ok "Maximum iterations reached. Task may be incomplete.") ∧
    ((∀ i, i < 10 → freeLoopingB c8freeEnv (headEntry (c8freeEnv.script.drop i)) = true) ∧
      (FreeText.executeCommand c8freeEnv [sysMsg0] "do it").message =
        "Maximum iterations reached. Task may be incomplete.") := by
  have h1 : ∀ i, i < 20 → structLoopingB (headEntry (c8structEnv.script.drop i)) = true := by
    decide
  have h2 : ∀ i, i < 10 → freeLoopingB c8freeEnv (headEntry (c8freeEnv.script.drop i)) = true := by
    decide
  exact ⟨⟨h1, c8_iteration_cap_yields_canned_message.1 c8structEnv [sysMsg0] "do it" h1⟩,
    ⟨h2, c8_iteration_cap_yields_canned_message.2 c8freeEnv [sysMsg0] "do it" h2⟩⟩

/-- C10: a degenerate terminal LLM response before the iteration cap (for
the structured variant no message, or neither truthy text content nor tool
calls; for the free-text variant valid JSON of neither directive shape, or
done true without a message field) makes executeCommand return the empty
string, neither a canned message nor an error. -/
theorem c10_degenerate_terminal_returns_empty :
    (∀ (env : McpAgent.Env) (hist0 : List Msg) (cmd : String) (k : Nat), k < 19 →
      (∀ i, i < k → structLoopingB (headEntry (env.script.drop i)) = true) →
      structDegenerateB (headEntry (env.script.drop k)) = true →
      (McpAgent.executeCommand env hist0 cmd).retval = Except.ok "") ∧
    (∀ (env : FreeText.Env) (hist0 : List Msg) (cmd : String) (k : Nat), k < 10 →
      (∀ i, i < k → freeLoopingB env (headEntry (env.script.drop i)) = true) →
      freeDegenerateB (headEntry (env.script.drop k)) = true →
      (FreeText.executeCommand env hist0 cmd).message = "") := by
  constructor
  · intro env hist0 cmd k hk hpre hdeg
    obtain ⟨st2, hl, hf, hi⟩ := structLoop_degen env k 20 env.script
      { hist := trimHistory (hist0 ++ [{ role := "user", content := some cmd }]),
        trace := [Ev.pushUser { role := "user", content := some cmd }, Ev.trimCheck],
        iteration := 0, finalMessage := "" } (by omega) hpre hdeg
    rw [mcp_executeCommand_retval env hist0 cmd st2 hl]
    have hi2 : ¬ 20 ≤ st2.iteration := by
      rw [hi]
      show ¬ 20 ≤ 0 + (k + 1)
      omega
    have hf2 : st2.finalMessage = "" := by rw [hf]
    rw [if_neg hi2, hf2]
  · intro env hist0 cmd k hk hpre hdeg
    obtain ⟨hf, ht⟩ := freeLoop_degen env k 10 env.script
      { hist := trimHistory (hist0 ++ [{ role := "user", content := some cmd }]),
        trace := [Ev.pushUser { role := "user", content := some cmd }, Ev.trimCheck],
        iteration := 0, finalMessage := "", taskComplete := false } rfl (by omega) hpre hdeg
    rw [free_executeCommand_message]
    have hcond : ¬ (10 ≤ (FreeText.loop env 10 env.script
        { hist := trimHistory (hist0 ++ [{ role := "user", content := some cmd }]),
          trace := [Ev.pushUser { role := "user", content := some cmd }, Ev.trimCheck],
          iteration := 0, finalMessage := "", taskComplete := false }).iteration ∧
        (FreeText.loop env 10 env.script
        { hist := trimHistory (hist0 ++ [{ role := "user", content := some cmd }]),
          trace := [Ev.pushUser { role := "user", content := some cmd }, Ev.trimCheck],
          iteration := 0, finalMessage := "", taskComplete := false }).taskComplete = false) := by
      intro hcon
      rw [ht] at hcon
      simp at hcon
    rw [if_neg hcond, hf]

/-- Witness for C10: a structured response with neither content nor tool
calls and a free-text response of valid JSON with neither directive shape,
both at the first round. -/
theorem c10_degenerate_terminal_returns_empty_witness :
    ((0 : Nat) < 19 ∧ structDegenerateB (headEntry (c10structEnv.script.drop 0)) = true ∧
      (McpAgent.executeCommand c10structEnv [sysMsg0] "go").retval = Except.ok "") ∧
    ((0 : Nat) < 10 ∧ freeDegenerateB (headEntry (c10freeEnv.script.drop 0)) = true ∧
      (FreeText.executeCommand c10freeEnv [sysMsg0] "go").message = "") := by
  have hd1 : structDegenerateB (headEntry (c10structEnv.script.drop 0)) = true := by decide
  have hd2 : freeDegenerateB (headEntry (c10freeEnv.script.drop 0)) = true := by decide
  refine ⟨⟨by omega, hd1, ?_⟩, ⟨by omega, hd2, ?_⟩⟩
  · exact c10_degenerate_terminal_returns_empty.1 c10structEnv [sysMsg0] "go" 0 (by omega)
      (fun i hi => absurd hi (Nat.not_lt_zero i)) hd1
  · exact c10_degenerate_terminal_returns_empty.2 c10freeEnv [sysMsg0] "go" 0 (by omega)
      (fun i hi => absurd hi (Nat.not_lt_zero i)) hd2
